import Mathlib

/-
  Verification of the treasury_manager contract
  (src/contracts/treasury_manager/src/execute.rs).

  The contract state and the execute entry points (receive, allocate, claim,
  update, unbond, add_holder) are embedded as pure Lean functions.  Machine
  integers (cosmwasm Uint128 and u128, compiled with overflow checks) are
  modelled as Nat; every subtraction the source performs on Uint128 is
  modelled as a checked subtraction returning an error (a panic and a
  returned StdError both abort the transaction atomically, so both are one
  error case of the Except monad).  External queries (token balances, the
  treasury allowance, adapter balance/claimable/unbondable) are passed in as
  explicit arguments; outgoing messages are collected in a list.
-/

namespace Shade

/-- Addresses are opaque identifiers; we model them as naturals. -/
abbrev Addr := Nat

/-- Token balance entry of a holding (dao::treasury_manager::Balance). -/
structure Balance where
  token : Addr
  amount : Nat
deriving Repr, DecidableEq

/-- Holder lifecycle status (dao::treasury_manager::Status). -/
inductive Status where
  | active
  | closed
deriving Repr, DecidableEq

/-- Holding record of one holder (dao::treasury_manager::Holding). -/
structure Holding where
  balances : List Balance
  unbondings : List Balance
  status : Status
deriving Repr, DecidableEq

instance : Inhabited Holding := ⟨⟨[], [], .active⟩⟩

/-- Allocation policy type (dao::treasury_manager::AllocationType). -/
inductive AllocationType where
  | portion
  | amount
deriving Repr, DecidableEq

/-- Allocation argument of the allocate entry point
(dao::treasury_manager::Allocation). -/
structure Allocation where
  nick : Option String
  contract : Addr
  allocType : AllocationType
  amount : Nat
  tolerance : Nat
deriving Repr, DecidableEq

/-- Stored allocation metadata (dao::treasury_manager::AllocationMeta);
balance is a rebalance-local cache refreshed from the adapter. -/
structure AllocationMeta where
  nick : Option String
  contract : Addr
  amount : Nat
  allocType : AllocationType
  balance : Nat
  tolerance : Nat
deriving Repr, DecidableEq

/-- Abort causes: StdError returns and arithmetic/unwrap panics both abort
the enclosing transaction with no state change. -/
inductive Err where
  | unauthorized
  | unrecognizedAsset
  | allocationCapExceeded
  | noUnbondings
  | inactiveHolding
  | noHoldings
  | insufficientBalance
  | holdingExists
  | missingHolding
  | missingUnbonding
  | underflow
  | nickPanic
  | indexPanic
deriving Repr, DecidableEq

/-- Outgoing messages queued by the entry points. -/
inductive Msg where
  | send (recipient : Addr) (amount : Nat)
  | sendFrom (owner recipient : Addr) (amount : Nat)
  | adapterUnbond (adapter : Addr) (amount : Nat)
  | adapterClaim (adapter : Addr)
deriving Repr, DecidableEq

/-- Persisted contract state: CONFIG.treasury, HOLDERS, HOLDING, ASSET_LIST
(doubling as the domain of ASSETS, which is saved exactly for registered
assets) and ALLOCATIONS. -/
structure State where
  treasury : Addr
  holders : List Addr
  holdings : List (Addr × Holding)
  assetList : List Addr
  allocations : List (Addr × List AllocationMeta)
deriving Repr, DecidableEq

/-- Lookup in an association list (storage map read). -/
def lookupKey {α : Type} : List (Addr × α) → Addr → Option α
  | [], _ => none
  | p :: ps, k => if p.1 == k then some p.2 else lookupKey ps k

/-- Write to an association list (storage map save): replace the entry if the
key is present, append otherwise. -/
def setKey {α : Type} : List (Addr × α) → Addr → α → List (Addr × α)
  | [], k, v => [(k, v)]
  | p :: ps, k, v => if p.1 == k then (k, v) :: ps else p :: setKey ps k v

/-- Amount of the first balance entry for a token, if any entry exists. -/
def getEntry? : List Balance → Addr → Option Nat
  | [], _ => none
  | b :: bs, tok => if b.token == tok then some b.amount else getEntry? bs tok

/-- Add to the first balance entry for a token, pushing a new entry when none
exists (the position/push pattern used throughout execute.rs). -/
def addEntry : List Balance → Addr → Nat → List Balance
  | [], tok, x => [⟨tok, x⟩]
  | b :: bs, tok, x =>
    if b.token == tok then { b with amount := b.amount + x } :: bs
    else b :: addEntry bs tok x

/-- Subtract from the first balance entry for a token; a missing entry or a
Uint128 underflow aborts. -/
def subEntry : List Balance → Addr → Nat → Except Err (List Balance)
  | [], _, _ => .error .missingUnbonding
  | b :: bs, tok, x =>
    if b.token == tok then
      if x ≤ b.amount then .ok ({ b with amount := b.amount - x } :: bs)
      else .error .underflow
    else (subEntry bs tok x).map (fun bs2 => b :: bs2)

/-- Checked Uint128 subtraction: underflow panics, aborting the transaction. -/
def checkedSub (a b : Nat) : Except Err Nat :=
  if b ≤ a then .ok (a - b) else .error .underflow

/-- Balance amount of a holder for a token, read through both maps. -/
def holderBalAmt (s : State) (h tok : Addr) : Option Nat :=
  (lookupKey s.holdings h).bind (fun hd => getEntry? hd.balances tok)

/-- Unbonding amount of a holder for a token, read through both maps. -/
def holderUnbAmt (s : State) (h tok : Addr) : Option Nat :=
  (lookupKey s.holdings h).bind (fun hd => getEntry? hd.unbondings tok)

/-! ## receive (execute.rs lines 52-102) -/

/-- Deposit intake: the calling token contract is the asset; deposits from a
registered allocation of that asset are claim returns and credit nobody;
otherwise the depositor (when a registered holder) or the treasury is
credited. -/
def receive (s : State) (sender depositor : Addr) (amount : Nat) :
    Except Err State := do
  if ¬ s.assetList.contains sender then throw .unrecognizedAsset
  let allocs ← match lookupKey s.allocations sender with
    | some a => pure a
    | none => throw .unrecognizedAsset
  if allocs.any (fun a => a.contract == depositor) then
    return s
  let holder := if s.holders.contains depositor then depositor else s.treasury
  let holding ← match lookupKey s.holdings holder with
    | some h => pure h
    | none => throw .missingHolding
  let holding := { holding with balances := addEntry holding.balances sender amount }
  return { s with holdings := setKey s.holdings holder holding }

/-! ## allocate (execute.rs lines 168-237) -/

def ONE_HUNDRED_PERCENT : Nat := 10 ^ 18

/-- Sum of the Portion-type target amounts of an allocation list. -/
def portionSum (l : List AllocationMeta) : Nat :=
  (l.map (fun a => if a.allocType == .portion then a.amount else 0)).sum

/-- Metadata stored for a freshly set allocation (balance starts at zero). -/
def newMeta (a : Allocation) : AllocationMeta :=
  ⟨a.nick, a.contract, a.amount, a.allocType, 0, a.tolerance⟩

/-- List rewrite performed by allocate: drop a stale allocation for the same
sub-account, push the new one. -/
def allocUpdatedList (apps : List AllocationMeta) (a : Allocation) :
    List AllocationMeta :=
  (apps.eraseP (fun x => x.contract == a.contract)) ++ [newMeta a]

/-- Set an allocation for an asset; rejects a Portion total above 100%. -/
def allocate (s : State) (isAdmin : Bool) (asset : Addr) (a : Allocation) :
    Except Err State := do
  if ¬ isAdmin then throw .unauthorized
  let apps := allocUpdatedList ((lookupKey s.allocations asset).getD []) a
  if portionSum apps > ONE_HUNDRED_PERCENT then throw .allocationCapExceeded
  return { s with allocations := setKey s.allocations asset apps }

/-! ## claim (execute.rs lines 239-345) -/

/-- Result of the claim entry point: new state, queued messages, and the two
loop-local amounts send_amount and total_claimed. -/
structure ClaimOut where
  state : State
  messages : List Msg
  sent : Nat
  totalClaimed : Nat
deriving Repr, DecidableEq

/-- Claim loop (execute.rs lines 299-315): walk allocations in registry order
while the residual claim_amount is positive, claiming the full claimable
amount of each adapter that reports one; returns the queued claim messages
and total_claimed. -/
def claimLoop (claimableQ : Addr → Nat) :
    List AllocationMeta → Nat → List Msg × Nat
  | [], _ => ([], 0)
  | a :: rest, claimAmount =>
    if claimAmount == 0 then ([], 0)
    else
      let c := claimableQ a.contract
      if 0 < c then
        let claimAmount2 := if c > claimAmount then 0 else claimAmount - c
        let (ms, tc) := claimLoop claimableQ rest claimAmount2
        (.adapterClaim a.contract :: ms, c + tc)
      else claimLoop claimableQ rest claimAmount

/-- Settle a pending unbonding: claims adapters when the pending amount
exceeds the liquid balance, then transfers
min(pending, liquid + total claimed) to the claimer. -/
def claimOp (s : State) (sender : Addr) (isAdmin : Bool) (asset : Addr)
    (liquid : Nat) (claimableQ : Addr → Nat) : Except Err ClaimOut := do
  if ¬ s.assetList.contains asset then throw .unrecognizedAsset
  let claimer := if isAdmin then s.treasury else sender
  if ¬ s.holders.contains claimer then throw .unauthorized
  let holding ← match lookupKey s.holdings claimer with
    | some h => pure h
    | none => throw .missingHolding
  let pending ← match getEntry? holding.unbondings asset with
    | some p => pure p
    | none => throw .noUnbondings
  let (claimMsgs, totalClaimed) ←
    if pending > liquid then do
      let allocs ← match lookupKey s.allocations asset with
        | some a => pure a
        | none => throw .unrecognizedAsset
      pure (claimLoop claimableQ allocs (pending - liquid))
    else pure (([], 0) : List Msg × Nat)
  let sendAmount := if pending > liquid + totalClaimed then liquid + totalClaimed else pending
  let unbondings ← subEntry holding.unbondings asset sendAmount
  let holding := { holding with unbondings := unbondings }
  let s := { s with holdings := setKey s.holdings claimer holding }
  return ⟨s, claimMsgs ++ [.send claimer sendAmount], sendAmount, totalClaimed⟩

/-- Refresh the cached balance of every allocation from the adapter balance
query (the loops at execute.rs lines 360-372 and 802-813). -/
def refreshBals (l : List AllocationMeta) (q : Addr → Nat) : List AllocationMeta :=
  l.map (fun a => { a with balance := q a.contract })

/-! ## unbond (execute.rs lines 630-898) -/

/-- Holding adjustment of unbond (execute.rs lines 659-698): requires an
active holding and an available balance entry covering the amount, then moves
the amount from the available balance to the pending unbondings. -/
def unbondMove (holding : Holding) (asset : Addr) (amount : Nat) :
    Except Err Holding := do
  if holding.status ≠ .active then throw .inactiveHolding
  let bal ← match getEntry? holding.balances asset with
    | some b => pure b
    | none => throw .noHoldings
  if bal < amount then throw .insufficientBalance
  let balances ← subEntry holding.balances asset amount
  let unbondings := addEntry holding.unbondings asset amount
  return { holding with balances := balances, unbondings := unbondings }

/-- Sum of the pending unbondings of every listed holder except one
(execute.rs lines 710-722); a missing holding record aborts the load. -/
def sumUnbondingsExcept (holdings : List (Addr × Holding)) (asset excl : Addr) :
    List Addr → Except Err Nat
  | [] => .ok 0
  | h :: rest => do
    let acc ← sumUnbondingsExcept holdings asset excl rest
    if h == excl then pure acc
    else match lookupKey holdings h with
      | some hd => pure ((getEntry? hd.unbondings asset).getD 0 + acc)
      | none => throw .missingHolding

/-- Decrement the unbonding entry of a holder after an immediate settlement
(the HOLDING.update closures at execute.rs lines 755-765 and 778-788). -/
def settleDecrement (s : State) (unbonder asset : Addr) (x : Nat) :
    Except Err State := do
  let hd ← match lookupKey s.holdings unbonder with
    | some hd => pure hd
    | none => throw .missingHolding
  let unbondings ← subEntry hd.unbondings asset x
  let holdings := setKey s.holdings unbonder { hd with unbondings := unbondings }
  return { s with holdings := holdings }

/-- Stable insertion of an allocation into a list sorted by ascending cached
balance. -/
def insertByBalance (x : AllocationMeta) :
    List AllocationMeta → List AllocationMeta
  | [] => [x]
  | y :: ys => if y.balance ≤ x.balance then y :: insertByBalance x ys
               else x :: y :: ys

/-- Stable sort by ascending cached balance (execute.rs line 827). -/
def sortByBalance : List AllocationMeta → List AllocationMeta
  | [] => []
  | x :: xs => insertByBalance x (sortByBalance xs)

/-- Adapter unbonding loop (execute.rs lines 830-889): walk the sorted
allocations while a residual remains, requesting the unbondable amount of
each, capped by the residual (both AllocationType arms are identical);
returns the queued unbond messages and the final residual. -/
def unbondAdapters (unbondableQ : Addr → Nat) :
    List AllocationMeta → Nat → List Msg × Nat
  | [], rem => ([], rem)
  | a :: rest, rem =>
    if rem == 0 then ([], 0)
    else
      let u := unbondableQ a.contract
      if rem > u then
        let (ms, r) := unbondAdapters unbondableQ rest (rem - u)
        (.adapterUnbond a.contract u :: ms, r)
      else ([.adapterUnbond a.contract rem], 0)

/-- Result of the unbond entry point: new state, queued messages, and the
residual unbond_amount reported in the answer. -/
structure UnbondOut where
  state : State
  messages : List Msg
  remaining : Nat
deriving Repr, DecidableEq

/-- Unbond entry point: move the amount from available to pending, settle
immediately from the liquid balance net of the other holders' pending
unbondings, then request the rest from adapters in ascending balance order.
The treasury allowance is queried by the source only to build an unused
local, so it is not a parameter here. -/
def unbond (s : State) (sender : Addr) (isAdmin : Bool) (asset : Addr)
    (amount : Nat) (liquid : Nat) (adapterBalQ unbondableQ : Addr → Nat) :
    Except Err UnbondOut := do
  let unbonder := if isAdmin then s.treasury else sender
  if ¬ s.assetList.contains asset then throw .unrecognizedAsset
  if ¬ s.holders.contains unbonder then throw .unauthorized
  let holding ← match lookupKey s.holdings unbonder with
    | some h => pure h
    | none => throw .missingHolding
  let holding ← unbondMove holding asset amount
  let s := { s with holdings := setKey s.holdings unbonder holding }
  let other ← sumUnbondingsExcept s.holdings asset unbonder s.holders
  let reserves := if liquid > other then liquid - other else 0
  let (s, msgs1, unbondAmount) ←
    if 0 < reserves then
      if reserves < amount then do
        let s ← settleDecrement s unbonder asset reserves
        pure (s, [Msg.send unbonder reserves], amount - reserves)
      else do
        let s ← settleDecrement s unbonder asset amount
        pure (s, [Msg.send unbonder amount], amount - amount)
    else pure (s, ([] : List Msg), amount)
  let allocs ← match lookupKey s.allocations asset with
    | some a => pure a
    | none => throw .unrecognizedAsset
  let refreshed := refreshBals allocs adapterBalQ
  let sorted := sortByBalance refreshed
  let (msgs2, remaining) := unbondAdapters unbondableQ sorted unbondAmount
  return ⟨s, msgs1 ++ msgs2, remaining⟩

/-! ## update (execute.rs lines 347-628) -/

/-- Sum of pending unbondings and of available balances over the listed
holders (execute.rs lines 379-391); a missing holding record aborts. -/
def holderSums (holdings : List (Addr × Holding)) (asset : Addr) :
    List Addr → Except Err (Nat × Nat)
  | [] => .ok (0, 0)
  | h :: rest => do
    let hd ← match lookupKey holdings h with
      | some hd => pure hd
      | none => throw .missingHolding
    let (u, p) ← holderSums holdings asset rest
    pure ((getEntry? hd.unbondings asset).getD 0 + u,
          (getEntry? hd.balances asset).getD 0 + p)

/-- Stable sort placing Amount allocations before Portion allocations
(execute.rs lines 430-439); a stable sort on this two-valued key is the
partition of the list. -/
def sortByType (l : List AllocationMeta) : List AllocationMeta :=
  l.filter (fun a => a.allocType == .amount) ++
    l.filter (fun a => a.allocType == .portion)

/-- Sort step of update: allocations are only sorted when more than one is
present (execute.rs line 429); sorting a shorter list is the identity. -/
def typeSorted (l : List AllocationMeta) : List AllocationMeta :=
  if l.length > 1 then sortByType l else l

/-- Running amount_total: sum of the refreshed balances of the Amount
allocations. -/
def amountTotalOf (l : List AllocationMeta) : Nat :=
  ((l.filter (fun a => a.allocType == .amount)).map (fun a => a.balance)).sum

/-- Running portion_total: sum of the refreshed balances of the Portion
allocations. -/
def portionTotalOf (l : List AllocationMeta) : Nat :=
  ((l.filter (fun a => a.allocType == .portion)).map (fun a => a.balance)).sum

/-- Outcome of funding one under-funded allocation. -/
structure FundRes where
  balance : Nat
  allowance : Nat
  balanceUsed : Nat
  allowanceUsed : Nat
  sends : List Nat
  sendFroms : List Nat
  brk : Bool
deriving Repr, DecidableEq

/-- Funding waterfall for one under-funded allocation (execute.rs lines
478-547): when the gap is strictly below the running balance it is funded in
full from the balance (and, when the allowance is positive, a zero-amount
allowance draw is still queued); otherwise a positive balance is sent whole
and the loop breaks; only with a zero balance is the allowance drawn, in
full when it strictly exceeds the gap, else sent whole with a break.  The
balance_used counter is incremented after the balance was zeroed in the
send-all branch, so that branch adds zero to it, as in the source. -/
def fundGap (gap balance allowance : Nat) : FundRes :=
  if gap < balance then
    if allowance ≠ 0 then
      ⟨balance - gap, allowance, gap, 0, [gap], [0], false⟩
    else
      ⟨balance - gap, allowance, gap, 0, [gap], [], false⟩
  else if balance ≠ 0 then
    ⟨0, allowance, 0, 0, [balance], [], true⟩
  else if allowance ≠ 0 then
    if gap < allowance then
      ⟨0, allowance - gap, 0, gap, [], [gap], false⟩
    else
      ⟨0, 0, 0, allowance, [], [allowance], true⟩
  else
    ⟨0, 0, 0, 0, [], [], false⟩

/-- Rebalance loop state: running balance and allowance, the running
amount_sending_out counter, the queued batch actions and adapter unbonding
messages, and the used counters. -/
structure PlanSt where
  balance : Nat
  allowance : Nat
  amountSendingOut : Nat
  sends : List (Addr × Nat)
  sendFroms : List (Addr × Nat)
  unbonds : List Msg
  allowanceUsed : Nat
  balanceUsed : Nat
deriving Repr, DecidableEq

/-- Rebalance loop body for one allocation (execute.rs lines 444-561): the
debug print unwraps the nick, so a missing nick panics; the desired amount
is the configured amount (accumulated into amount_sending_out) for Amount
allocations and the configured share of the residual for Portion
allocations; a gap or surplus within the tolerance threshold is skipped;
an under-funded allocation runs the funding waterfall and an over-funded
one queues an adapter unbond message.  Returns the next state and whether
the loop breaks. -/
def planStep (total : Nat) (st : PlanSt) (a : AllocationMeta) :
    Except Err (PlanSt × Bool) := do
  if a.nick.isNone then throw .nickPanic
  let desired := match a.allocType with
    | .amount => a.amount
    | .portion =>
      if total > st.amountSendingOut then
        a.amount * (total - st.amountSendingOut) / ONE_HUNDRED_PERCENT
      else 0
  let aso := match a.allocType with
    | .amount => st.amountSendingOut + a.amount
    | .portion => st.amountSendingOut
  let st := { st with amountSendingOut := aso }
  let threshold := desired * a.tolerance / ONE_HUNDRED_PERCENT
  if a.balance < desired then
    let gap := desired - a.balance
    if gap ≤ threshold then return (st, false)
    let f := fundGap gap st.balance st.allowance
    let st := { st with
      balance := f.balance,
      allowance := f.allowance,
      sends := st.sends ++ f.sends.map (fun x => (a.contract, x)),
      sendFroms := st.sendFroms ++ f.sendFroms.map (fun x => (a.contract, x)),
      balanceUsed := st.balanceUsed + f.balanceUsed,
      allowanceUsed := st.allowanceUsed + f.allowanceUsed }
    return (st, f.brk)
  else if a.balance > desired then
    let out := a.balance - desired
    if out ≤ threshold then return (st, false)
    let st := { st with unbonds := st.unbonds ++ [.adapterUnbond a.contract out] }
    return (st, false)
  else return (st, false)

/-- Rebalance loop over the sorted allocations, honoring breaks. -/
def planLoop (total : Nat) (st : PlanSt) :
    List AllocationMeta → Except Err PlanSt
  | [] => .ok st
  | a :: rest => do
    let (st2, brk) ← planStep total st a
    if brk then pure st2 else planLoop total st2 rest

/-- Gain and loss reconciliation (execute.rs lines 585-603): compare the
investable total against the realized holder principal and credit a surplus
or debit a deficit on the treasury balance entry for the asset; both
branches silently do nothing when the treasury has no entry for the asset,
and the debit aborts on underflow. -/
def driftAdjust (s : State) (asset : Addr) (outTotal holderPrin : Nat) :
    Except Err State := do
  if outTotal > holderPrin then
    let tHold ← match lookupKey s.holdings s.treasury with
      | some h => pure h
      | none => throw .missingHolding
    match getEntry? tHold.balances asset with
    | some _ =>
      let bal := addEntry tHold.balances asset (outTotal - holderPrin)
      let holdings := setKey s.holdings s.treasury { tHold with balances := bal }
      return { s with holdings := holdings }
    | none => return s
  else if outTotal < holderPrin then
    let tHold ← match lookupKey s.holdings s.treasury with
      | some h => pure h
      | none => throw .missingHolding
    match getEntry? tHold.balances asset with
    | some _ =>
      let bal ← subEntry tHold.balances asset (holderPrin - outTotal)
      let holdings := setKey s.holdings s.treasury { tHold with balances := bal }
      return { s with holdings := holdings }
    | none => return s
  else return s

/-- Result of the update entry point: new state, the two batched action
lists, the adapter unbond messages, and the used counters. -/
structure UpdateOut where
  state : State
  sendActions : List (Addr × Nat)
  sendFromActions : List (Addr × Nat)
  unbondMsgs : List Msg
  allowanceUsed : Nat
  balanceUsed : Nat
deriving Repr, DecidableEq

/-- Rebalance entry point.  The debug print at execute.rs line 354 indexes
allocations[0], so an empty allocation list panics.  Refreshes the cached
adapter balances, computes the investable total net of pending unbondings
(a checked subtraction), runs the rebalance loop over the type-sorted list,
credits the used allowance to the treasury holding, and reconciles drift
against the realized principal. -/
def update (s : State) (asset : Addr) (liquid allowance : Nat)
    (adapterBalQ : Addr → Nat) : Except Err UpdateOut := do
  if ¬ s.assetList.contains asset then throw .unrecognizedAsset
  let allocs ← match lookupKey s.allocations asset with
    | some a => pure a
    | none => throw .unrecognizedAsset
  if allocs.isEmpty then throw .indexPanic
  let refreshed := refreshBals allocs adapterBalQ
  let amountTotal := amountTotalOf refreshed
  let portionTotal := portionTotalOf refreshed
  let (holderUnb, holderPrin) ← holderSums s.holdings asset s.holders
  let outTotal ← checkedSub (amountTotal + portionTotal + liquid) holderUnb
  let total := outTotal + allowance
  let sorted := typeSorted refreshed
  let plan ← planLoop total ⟨liquid, allowance, 0, [], [], [], 0, 0⟩ sorted
  let tHold ← match lookupKey s.holdings s.treasury with
    | some h => pure h
    | none => throw .missingHolding
  let tHold := { tHold with balances := addEntry tHold.balances asset plan.allowanceUsed }
  let s := { s with holdings := setKey s.holdings s.treasury tHold }
  let s ← driftAdjust s asset outTotal (holderPrin + plan.allowanceUsed)
  return ⟨s, plan.sends, plan.sendFroms, plan.unbonds, plan.allowanceUsed, plan.balanceUsed⟩

/-! ## add_holder (execute.rs lines 900-934) -/

/-- Register a new holder with an empty active holding. -/
def addHolder (s : State) (isAdmin : Bool) (holder : Addr) : Except Err State := do
  if ¬ isAdmin then throw .unauthorized
  if s.holders.contains holder then throw .holdingExists
  return { s with
    holders := s.holders ++ [holder],
    holdings := setKey s.holdings holder ⟨[], [], .active⟩ }

/-! ## Closed single-asset system model

Modelled from the spec: the external token and adapter protocols (spec
sections 1, 5 and the adapter interface) are out-of-scope collaborators, so
for the conservation property we close the system over one asset: the
contract liquid balance and a pool of adapters (each with a staked and a
claimable amount) form the environment; queued messages execute in order
after the entry point commits; an adapter reports its total held amount as
its balance, its staked amount as unbondable and its matured amount as
claimable; an adapter unbond request matures staked funds into claimable
funds and an adapter claim transfers the claimable funds back to the
contract. -/

/-- Environment state of one adapter: address, staked and matured funds. -/
structure AdapterSt where
  addr : Addr
  staked : Nat
  claimable : Nat
deriving Repr, DecidableEq

/-- Closed system: contract state, contract liquid token balance, adapters. -/
structure Sys where
  st : State
  liquid : Nat
  pool : List AdapterSt
deriving Repr, DecidableEq

/-- First adapter with a given address. -/
def poolFind : List AdapterSt → Addr → Option AdapterSt
  | [], _ => none
  | p :: ps, a => if p.addr == a then some p else poolFind ps a

/-- Adapter balance query: total funds held by the adapter. -/
def poolBalQ (pool : List AdapterSt) (a : Addr) : Nat :=
  match poolFind pool a with
  | some p => p.staked + p.claimable
  | none => 0

/-- Adapter unbondable query: staked funds. -/
def poolUnbondableQ (pool : List AdapterSt) (a : Addr) : Nat :=
  match poolFind pool a with
  | some p => p.staked
  | none => 0

/-- Adapter claimable query: matured funds. -/
def poolClaimableQ (pool : List AdapterSt) (a : Addr) : Nat :=
  match poolFind pool a with
  | some p => p.claimable
  | none => 0

/-- Modify the first adapter with a given address. -/
def poolModify (pool : List AdapterSt) (a : Addr) (f : AdapterSt → AdapterSt) :
    List AdapterSt :=
  match pool with
  | [] => []
  | p :: ps => if p.addr == a then f p :: ps else p :: poolModify ps a f

/-- Execute one queued message against the environment: a send debits the
liquid balance (and stakes into the recipient when it is a pool adapter), an
allowance send stakes external treasury funds into the recipient adapter, an
adapter unbond matures staked funds, an adapter claim moves the claimable
funds into the liquid balance. -/
def applyMsg (env : Nat × List AdapterSt) : Msg → Nat × List AdapterSt
  | .send r x =>
    (env.1 - x, poolModify env.2 r (fun p => { p with staked := p.staked + x }))
  | .sendFrom _ r x =>
    (env.1, poolModify env.2 r (fun p => { p with staked := p.staked + x }))
  | .adapterUnbond a x =>
    (env.1, poolModify env.2 a (fun p =>
      let y := min x p.staked
      { p with staked := p.staked - y, claimable := p.claimable + y }))
  | .adapterClaim a =>
    match poolFind env.2 a with
    | some p => (env.1 + p.claimable,
        poolModify env.2 a (fun q => { q with claimable := 0 }))
    | none => env

/-- Execute a message queue in order. -/
def applyMsgs (env : Nat × List AdapterSt) (ms : List Msg) : Nat × List AdapterSt :=
  ms.foldl applyMsg env

/-- Holder-facing operations of the conservation property. -/
inductive Op where
  | deposit (depositor : Addr) (amt : Nat)
  | unbond (sender : Addr) (isAdmin : Bool) (amt : Nat)
  | claim (sender : Addr) (isAdmin : Bool)
deriving Repr, DecidableEq

/-- Run one operation on the closed system: a deposit arrives together with
its token transfer, other operations draw their queries from the
environment and their queued messages execute afterwards; a failed
operation aborts atomically, leaving the system unchanged. -/
def runOp (asset : Addr) (sys : Sys) : Op → Sys
  | .deposit d amt =>
    match receive sys.st asset d amt with
    | .ok st => ⟨st, sys.liquid + amt, sys.pool⟩
    | .error _ => sys
  | .unbond sender isAdmin amt =>
    match unbond sys.st sender isAdmin asset amt sys.liquid
        (poolBalQ sys.pool) (poolUnbondableQ sys.pool) with
    | .ok out =>
      let env := applyMsgs (sys.liquid, sys.pool) out.messages
      ⟨out.state, env.1, env.2⟩
    | .error _ => sys
  | .claim sender isAdmin =>
    match claimOp sys.st sender isAdmin asset sys.liquid (poolClaimableQ sys.pool) with
    | .ok out =>
      let env := applyMsgs (sys.liquid, sys.pool) out.messages
      ⟨out.state, env.1, env.2⟩
    | .error _ => sys

/-- Run a sequence of operations. -/
def runOps (asset : Addr) (sys : Sys) (ops : List Op) : Sys :=
  ops.foldl (runOp asset) sys

/-- Run a rebalance on the closed system: queries come from the environment
and the queued messages (adapter unbonds, then the batched sends, then the
batched allowance sends) execute afterwards. -/
def runUpdate (asset : Addr) (sys : Sys) (allowance : Nat) : Sys :=
  match update sys.st asset sys.liquid allowance (poolBalQ sys.pool) with
  | .ok out =>
    let ms := out.unbondMsgs ++ out.sendActions.map (fun p => Msg.send p.1 p.2)
      ++ out.sendFromActions.map (fun p => Msg.sendFrom sys.st.treasury p.1 p.2)
    let env := applyMsgs (sys.liquid, sys.pool) ms
    ⟨out.state, env.1, env.2⟩
  | .error _ => sys

/-- Sum over a holder list of a balance-list projection of their holdings. -/
def entrySum (f : Holding → List Balance) (holdings : List (Addr × Holding))
    (asset : Addr) (hs : List Addr) : Nat :=
  (hs.map (fun h =>
    (getEntry? (f ((lookupKey holdings h).getD default)) asset).getD 0)).sum

/-- Sum of the listed holders' available balances for the asset. -/
def sumAvail (s : State) (asset : Addr) : Nat :=
  entrySum (fun hd => hd.balances) s.holdings asset s.holders

/-- Sum of the listed holders' pending unbondings for the asset. -/
def sumUnb (s : State) (asset : Addr) : Nat :=
  entrySum (fun hd => hd.unbondings) s.holdings asset s.holders

/-- Second components of an action list (the batched amounts). -/
def sumSnd (l : List (Addr × Nat)) : Nat :=
  (l.map (fun p => p.2)).sum

/-- Addresses of the adapter pool. -/
def poolAddrs (pool : List AdapterSt) : List Addr :=
  pool.map (fun p => p.addr)

/-- Total funds held by the adapter pool. -/
def poolTotal (pool : List AdapterSt) : Nat :=
  (pool.map (fun p => p.staked + p.claimable)).sum

/-- Total assets of an environment: liquid balance plus pool funds. -/
def envTotal (env : Nat × List AdapterSt) : Nat :=
  env.1 + poolTotal env.2

/-- Balanced conserved quantity: holder claims minus held assets. -/
def conserved (asset : Addr) (sys : Sys) : ℤ :=
  ((sumAvail sys.st asset + sumUnb sys.st asset : Nat) : ℤ)
    - ((sys.liquid + poolTotal sys.pool : Nat) : ℤ)

/-- Quantity named by the conservation claim: available plus pending plus
allocation balances plus liquid balance. -/
def statedQuantity (asset : Addr) (sys : Sys) : Nat :=
  sumAvail sys.st asset + sumUnb sys.st asset + poolTotal sys.pool + sys.liquid

/-- Available balance of the treasury holder for the asset. -/
def treasAvail (s : State) (asset : Addr) : Nat :=
  (holderBalAmt s s.treasury asset).getD 0

/-- Well-formedness of the closed system: the treasury is a listed holder,
holders are listed once, the asset is registered, and its allocation list
matches the adapter pool one for one. -/
structure Wf (asset : Addr) (sys : Sys) : Prop where
  treasuryHolder : sys.st.treasury ∈ sys.st.holders
  holdersNodup : sys.st.holders.Nodup
  assetReg : asset ∈ sys.st.assetList
  allocsPool : ∃ allocs, lookupKey sys.st.allocations asset = some allocs ∧
    allocs.map (fun a => a.contract) = poolAddrs sys.pool
  poolNodup : (poolAddrs sys.pool).Nodup
  holdersNotAdapters : ∀ h ∈ sys.st.holders, h ∉ poolAddrs sys.pool

/-- Condition on an operation: a deposit must not come from an adapter
address (such an inflow is an externally observed gain, not a deposit). -/
def OpOK (pool : List AdapterSt) : Op → Prop
  | .deposit d _ => d ∉ poolAddrs pool
  | _ => True

/-- Sum of the pending unbondings of every listed holder other than one,
read directly from the state. -/
def othersPending (s : State) (excl asset : Addr) : Nat :=
  ((s.holders.filter (fun h => ¬ h == excl)).map (fun h =>
    (getEntry? ((lookupKey s.holdings h).getD default).unbondings asset).getD 0)).sum

/-- Fixed nickname used by concrete test states (allocations with a missing
nick panic inside update, so test allocations carry one). -/
def nickA : String := "a"

/-- The state components an operation never touches: everything but the
holdings map. -/
def StableTo (s1 s2 : State) : Prop :=
  s2.treasury = s1.treasury ∧ s2.holders = s1.holders ∧
  s2.assetList = s1.assetList ∧ s2.allocations = s1.allocations

/-!
## Lemmas and theorems
-/

theorem lookupKey_setKey_self {α : Type} (m : List (Addr × α)) (k : Addr) (v : α) :
    lookupKey (setKey m k v) k = some v := by
  induction m with
  | nil => simp [setKey, lookupKey]
  | cons p ps ih =>
    by_cases h : p.1 = k
    · simp [setKey, lookupKey, h]
    · simp [setKey, lookupKey, h, ih]

theorem lookupKey_setKey_ne {α : Type} (m : List (Addr × α)) (k k2 : Addr) (v : α)
    (h : k2 ≠ k) : lookupKey (setKey m k v) k2 = lookupKey m k2 := by
  induction m with
  | nil => simp [setKey, lookupKey, Ne.symm h]
  | cons p ps ih =>
    by_cases hp : p.1 = k
    · simp [setKey, lookupKey, hp, Ne.symm h, fun hh : k = k2 => h hh.symm]
    · by_cases hp2 : p.1 = k2
      · simp [setKey, lookupKey, hp, hp2, h]
      · simp [setKey, lookupKey, hp, hp2, ih]

theorem getEntry?_addEntry_self (l : List Balance) (tok : Addr) (x : Nat) :
    getEntry? (addEntry l tok x) tok = some ((getEntry? l tok).getD 0 + x) := by
  induction l with
  | nil => simp [addEntry, getEntry?]
  | cons b bs ih =>
    by_cases h : b.token = tok
    · simp [addEntry, getEntry?, h]
    · simp [addEntry, getEntry?, h, ih]

theorem getEntry?_addEntry_ne (l : List Balance) (tok t : Addr) (x : Nat)
    (h : t ≠ tok) : getEntry? (addEntry l tok x) t = getEntry? l t := by
  induction l with
  | nil => simp [addEntry, getEntry?, Ne.symm h]
  | cons b bs ih =>
    by_cases hb : b.token = tok
    · simp [addEntry, getEntry?, hb, Ne.symm h]
    · by_cases hb2 : b.token = t
      · simp [addEntry, getEntry?, hb, hb2, h]
      · simp [addEntry, getEntry?, hb, hb2, ih]

theorem subEntry_missing (l : List Balance) (tok : Addr) (x : Nat)
    (h : getEntry? l tok = none) : subEntry l tok x = .error .missingUnbonding := by
  induction l with
  | nil => simp [subEntry]
  | cons b bs ih =>
    by_cases hb : b.token = tok
    · simp [getEntry?, hb] at h
    · simp [getEntry?, hb] at h
      simp [subEntry, hb, ih h, Except.map]

theorem subEntry_underflow (l : List Balance) (tok : Addr) (x a : Nat)
    (h : getEntry? l tok = some a) (hx : a < x) :
    subEntry l tok x = .error .underflow := by
  induction l with
  | nil => simp [getEntry?] at h
  | cons b bs ih =>
    by_cases hb : b.token = tok
    · simp [getEntry?, hb] at h
      subst h
      simp [subEntry, hb, Nat.not_le.mpr hx]
    · simp [getEntry?, hb] at h
      simp [subEntry, hb, ih h, Except.map]

theorem subEntry_ok (l : List Balance) (tok : Addr) (x a : Nat)
    (h : getEntry? l tok = some a) (hx : x ≤ a) :
    ∃ l2, subEntry l tok x = .ok l2 ∧ getEntry? l2 tok = some (a - x) ∧
      ∀ t, t ≠ tok → getEntry? l2 t = getEntry? l t := by
  induction l with
  | nil => simp [getEntry?] at h
  | cons b bs ih =>
    by_cases hb : b.token = tok
    · simp [getEntry?, hb] at h
      subst h
      refine ⟨{ b with amount := b.amount - x } :: bs, ?_, ?_, ?_⟩
      · simp [subEntry, hb, hx]
      · simp [getEntry?, hb]
      · intro t ht
        have : b.token ≠ t := by
          rw [hb]; exact Ne.symm ht
        simp [getEntry?, this]
    · simp [getEntry?, hb] at h
      obtain ⟨l2, hl2, hget, hother⟩ := ih h
      refine ⟨b :: l2, ?_, ?_, ?_⟩
      · simp [subEntry, hb, hl2, Except.map]
      · simp [getEntry?, hb, hget]
      · intro t ht
        by_cases hbt : b.token = t
        · simp [getEntry?, hbt]
        · simp [getEntry?, hbt, hother t ht]

/-- C10: add_holder fails for a holder address already present in the holder
list; for a fresh address it appends the address to the list and creates a
holding with empty balances, empty unbondings and Active status, leaving
every other holding and the rest of the state unchanged. -/
theorem addHolder_spec (s : State) (holder : Addr) :
    (holder ∈ s.holders → addHolder s true holder = .error .holdingExists)
    ∧ (holder ∉ s.holders → ∃ s2, addHolder s true holder = .ok s2 ∧
        s2.holders = s.holders ++ [holder] ∧
        lookupKey s2.holdings holder = some ⟨[], [], .active⟩ ∧
        (∀ h, h ≠ holder → lookupKey s2.holdings h = lookupKey s.holdings h) ∧
        s2.treasury = s.treasury ∧ s2.assetList = s.assetList ∧
        s2.allocations = s.allocations) := by
  constructor
  · intro h
    simp [addHolder, h]
    rfl
  · intro h
    refine ⟨{ s with holders := s.holders ++ [holder], holdings := setKey s.holdings holder ⟨[], [], .active⟩ }, ?_, rfl, lookupKey_setKey_self _ _ _, fun h2 hne => lookupKey_setKey_ne _ _ _ _ hne, rfl, rfl, rfl⟩
    simp [addHolder, h]
    rfl

/-- Closed witness for addHolder_spec. -/
theorem addHolder_spec_witness :
    addHolder ⟨0, [0], [(0, ⟨[], [], .active⟩)], [], []⟩ true 0
      = .error .holdingExists :=
  (addHolder_spec ⟨0, [0], [(0, ⟨[], [], .active⟩)], [], []⟩ 0).1 (by decide)

/-- C2: allocate (set_allocation) replaces any stale allocation of the same
sub-account, and fails with the cap error exactly when the Portion target
sum over the updated list strictly exceeds 10^18; a sum of exactly 10^18 is
accepted and the updated list is stored.  An error aborts the transaction,
so the stored list is untouched on failure. -/
theorem allocate_spec (s : State) (asset : Addr) (a : Allocation) :
    (ONE_HUNDRED_PERCENT < portionSum (allocUpdatedList ((lookupKey s.allocations asset).getD []) a) →
      allocate s true asset a = .error .allocationCapExceeded)
    ∧ (portionSum (allocUpdatedList ((lookupKey s.allocations asset).getD []) a) ≤ ONE_HUNDRED_PERCENT →
      allocate s true asset a = .ok { s with allocations := setKey s.allocations asset (allocUpdatedList ((lookupKey s.allocations asset).getD []) a) }) := by
  constructor
  · intro h
    simp [allocate, h]
    rfl
  · intro h
    simp [allocate, Nat.not_lt.mpr h]
    rfl

/-- Closed witness for allocate_spec: a single Portion allocation with a
target of exactly 10^18 is accepted. -/
theorem allocate_spec_witness :
    allocate ⟨0, [0], [(0, ⟨[], [], .active⟩)], [10], [(10, [])]⟩ true 10
      ⟨none, 20, .portion, 10 ^ 18, 0⟩
      = .ok { treasury := 0, holders := [0], holdings := [(0, ⟨[], [], .active⟩)], assetList := [10], allocations := [(10, [⟨none, 20, 10 ^ 18, .portion, 0, 0⟩])] } := by
  have h := (allocate_spec ⟨0, [0], [(0, ⟨[], [], .active⟩)], [10], [(10, [])]⟩ 10
    ⟨none, 20, .portion, 10 ^ 18, 0⟩).2 (by decide)
  exact h

/-- C9: a deposit whose depositor matches a registered allocation of the
asset changes no holding at all; otherwise the amount is credited to the
depositor when it is a listed holder, and to the treasury holder when it is
not, leaving every other holding unchanged. -/
theorem receive_spec (s : State) (sender depositor : Addr) (amt : Nat)
    (allocs : List AllocationMeta)
    (hreg : sender ∈ s.assetList)
    (hallocs : lookupKey s.allocations sender = some allocs) :
    ((∃ al ∈ allocs, al.contract = depositor) →
      receive s sender depositor amt = .ok s)
    ∧ ((¬ ∃ al ∈ allocs, al.contract = depositor) →
       depositor ∈ s.holders →
       ∀ hd, lookupKey s.holdings depositor = some hd →
       ∃ s2, receive s sender depositor amt = .ok s2 ∧
         holderBalAmt s2 depositor sender
           = some ((getEntry? hd.balances sender).getD 0 + amt) ∧
         (∀ h, h ≠ depositor → lookupKey s2.holdings h = lookupKey s.holdings h) ∧
         s2.holders = s.holders ∧ s2.treasury = s.treasury)
    ∧ ((¬ ∃ al ∈ allocs, al.contract = depositor) →
       depositor ∉ s.holders →
       ∀ th, lookupKey s.holdings s.treasury = some th →
       ∃ s2, receive s sender depositor amt = .ok s2 ∧
         holderBalAmt s2 s.treasury sender
           = some ((getEntry? th.balances sender).getD 0 + amt) ∧
         (∀ h, h ≠ s.treasury → lookupKey s2.holdings h = lookupKey s.holdings h) ∧
         s2.holders = s.holders ∧ s2.treasury = s.treasury) := by
  refine ⟨?_, ?_, ?_⟩
  · intro h
    simp [receive, hreg, hallocs, h]
    rfl
  · intro hno hmem hd hhd
    refine ⟨{ s with holdings := setKey s.holdings depositor { hd with balances := addEntry hd.balances sender amt } }, ?_, ?_, ?_, rfl, rfl⟩
    · simp [receive, hreg, hallocs, hno, hmem, hhd]
      rfl
    · simp [holderBalAmt, lookupKey_setKey_self, getEntry?_addEntry_self]
    · exact fun h hne => lookupKey_setKey_ne _ _ _ _ hne
  · intro hno hmem th hth
    refine ⟨{ s with holdings := setKey s.holdings s.treasury { th with balances := addEntry th.balances sender amt } }, ?_, ?_, ?_, rfl, rfl⟩
    · simp [receive, hreg, hallocs, hno, hmem, hth]
      rfl
    · simp [holderBalAmt, lookupKey_setKey_self, getEntry?_addEntry_self]
    · exact fun h hne => lookupKey_setKey_ne _ _ _ _ hne

/-- Closed witness for receive_spec: a deposit from a registered holder is
credited to that holder. -/
theorem receive_spec_witness :
    ∃ s2, receive ⟨0, [0, 1], [(0, ⟨[], [], .active⟩), (1, ⟨[], [], .active⟩)], [10], [(10, [⟨none, 20, 50, .amount, 0, 0⟩])]⟩ 10 1 100 = .ok s2 ∧
      holderBalAmt s2 1 10 = some ((getEntry? ([] : List Balance) 10).getD 0 + 100) ∧
      (∀ h, h ≠ 1 → lookupKey s2.holdings h
        = lookupKey [(0, (⟨[], [], .active⟩ : Holding)), (1, ⟨[], [], .active⟩)] h) ∧
      s2.holders = [0, 1] ∧ s2.treasury = 0 :=
  (receive_spec ⟨0, [0, 1], [(0, ⟨[], [], .active⟩), (1, ⟨[], [], .active⟩)], [10], [(10, [⟨none, 20, 50, .amount, 0, 0⟩])]⟩ 10 1 100 [⟨none, 20, 50, .amount, 0, 0⟩]
    (by decide) (by decide)).2.1 (by decide) (by decide) ⟨[], [], .active⟩ (by decide)

theorem claimLoop_msgs (q : Addr → Nat) :
    ∀ (l : List AllocationMeta) (n : Nat) m, m ∈ (claimLoop q l n).1 →
      ∃ a, m = Msg.adapterClaim a := by
  intro l
  induction l with
  | nil => intro n m hm; simp [claimLoop] at hm
  | cons a rest ih =>
    intro n m hm
    by_cases hn : n = 0
    · subst hn; simp [claimLoop] at hm
    · by_cases hq : 0 < q a.contract
      · simp [claimLoop, hn, hq] at hm
        rcases hm with h | h
        · exact ⟨a.contract, h⟩
        · exact ih _ m h
      · simp [claimLoop, hn, hq] at hm
        exact ih _ m hm

theorem claimLoop_shape (claimableQ : Addr → Nat) :
    ∀ (l : List AllocationMeta) (n : Nat),
      ∃ as : List Addr, (claimLoop claimableQ l n).1 = as.map Msg.adapterClaim ∧
        (claimLoop claimableQ l n).2 = (as.map claimableQ).sum ∧
        as.Sublist (l.map (fun a => a.contract)) := by
  intro l
  induction l with
  | nil =>
    intro n
    exact ⟨[], by simp [claimLoop], by simp [claimLoop], by simp⟩
  | cons a rest ih =>
    intro n
    by_cases hn : n = 0
    · subst hn
      exact ⟨[], by simp [claimLoop], by simp [claimLoop], List.nil_sublist _⟩
    · by_cases hq : 0 < claimableQ a.contract
      · obtain ⟨as, h1, h2, h3⟩ :=
          ih (if claimableQ a.contract > n then 0 else n - claimableQ a.contract)
        refine ⟨a.contract :: as, ?_, ?_, ?_⟩
        · simp [claimLoop, hn, hq, h1]
        · simp [claimLoop, hn, hq, h2]
        · simpa using List.Sublist.cons₂ a.contract h3
      · obtain ⟨as, h1, h2, h3⟩ := ih n
        refine ⟨as, ?_, ?_, ?_⟩
        · simp [claimLoop, hn, hq, h1]
        · simp [claimLoop, hn, hq, h2]
        · exact h3.cons a.contract

/-- Characterization of a successful claim, shared by the claim theorems. -/
theorem claimOp_ok_spec (s : State) (claimer asset : Addr)
    (liquid : Nat) (claimableQ : Addr → Nat) (hd : Holding) (p : Nat)
    (al : List AllocationMeta)
    (hreg : asset ∈ s.assetList)
    (hmem : claimer ∈ s.holders)
    (hhd : lookupKey s.holdings claimer = some hd)
    (hp : getEntry? hd.unbondings asset = some p)
    (hal : lookupKey s.allocations asset = some al) :
    ∃ out, claimOp s claimer false asset liquid claimableQ = .ok out ∧
      out.sent = min p (liquid + out.totalClaimed) ∧
      holderUnbAmt out.state claimer asset = some (p - out.sent) ∧
      (∀ h, h ≠ claimer → lookupKey out.state.holdings h = lookupKey s.holdings h) ∧
      out.state.holders = s.holders ∧
      out.state.treasury = s.treasury ∧
      out.state.assetList = s.assetList ∧
      out.state.allocations = s.allocations ∧
      (∃ hd2, lookupKey out.state.holdings claimer = some hd2 ∧
        hd2.balances = hd.balances ∧
        getEntry? hd2.unbondings asset = some (p - out.sent)) ∧
      ∃ as : List Addr, out.messages = as.map Msg.adapterClaim ++ [.send claimer out.sent] ∧
        out.totalClaimed = (as.map claimableQ).sum ∧
        as.Sublist (al.map (fun a => a.contract)) := by
  by_cases hpl : p > liquid
  · set TC := (claimLoop claimableQ al (p - liquid)).2 with hTC
    set sendAmount := if p > liquid + TC then liquid + TC else p with hSA
    have hsa_le : sendAmount ≤ p := by
      rw [hSA]
      split
      · omega
      · exact le_refl p
    obtain ⟨l2, hl2, hget, hother⟩ := subEntry_ok hd.unbondings asset sendAmount p hp hsa_le
    obtain ⟨as, has1, has2, has3⟩ := claimLoop_shape claimableQ al (p - liquid)
    refine ⟨⟨{ s with holdings := setKey s.holdings claimer { hd with unbondings := l2 } }, (claimLoop claimableQ al (p - liquid)).1 ++ [.send claimer sendAmount], sendAmount, TC⟩, ?_, ?_, ?_, ?_, rfl, rfl, rfl, rfl, ?_, ?_⟩
    · simp [claimOp, hreg, hmem, hhd, hp, hpl, hal, hl2]
    · simp only [hSA]
      split
      · omega
      · omega
    · simp [holderUnbAmt, lookupKey_setKey_self, hget]
    · exact fun h hne => lookupKey_setKey_ne _ _ _ _ hne
    · exact ⟨{ hd with unbondings := l2 }, lookupKey_setKey_self _ _ _, rfl, hget⟩
    · exact ⟨as, by rw [has1], has2, has3⟩
  · have hple : p ≤ liquid := Nat.not_lt.mp hpl
    obtain ⟨l2, hl2, hget, hother⟩ := subEntry_ok hd.unbondings asset p p hp (le_refl p)
    refine ⟨⟨{ s with holdings := setKey s.holdings claimer { hd with unbondings := l2 } }, [.send claimer p], p, 0⟩, ?_, ?_, ?_, ?_, rfl, rfl, rfl, rfl, ?_, ?_⟩
    · simp [claimOp, hreg, hmem, hhd, hp, hpl, hl2, Nat.not_lt.mpr hple]
    · simp
      omega
    · simp [holderUnbAmt, lookupKey_setKey_self, hget]
    · exact fun h hne => lookupKey_setKey_ne _ _ _ _ hne
    · exact ⟨{ hd with unbondings := l2 }, lookupKey_setKey_self _ _ _, rfl, hget⟩
    · exact ⟨[], by simp, by simp, List.nil_sublist _⟩

/-- C6: when a claim succeeds on a pending unbonding of p, the settlement
amount is min(p, liquid balance + total claimed from allocations this
call), the pending entry is decremented by exactly that amount, other
holdings are untouched, and the queued messages are the adapter claims
followed by one direct transfer of exactly the settlement amount. -/
theorem claim_settlement (s : State) (claimer asset : Addr)
    (liquid : Nat) (claimableQ : Addr → Nat) (hd : Holding) (p : Nat)
    (al : List AllocationMeta)
    (hreg : asset ∈ s.assetList)
    (hmem : claimer ∈ s.holders)
    (hhd : lookupKey s.holdings claimer = some hd)
    (hp : getEntry? hd.unbondings asset = some p)
    (hal : lookupKey s.allocations asset = some al) :
    ∃ out, claimOp s claimer false asset liquid claimableQ = .ok out ∧
      out.sent = min p (liquid + out.totalClaimed) ∧
      holderUnbAmt out.state claimer asset = some (p - out.sent) ∧
      (∀ h, h ≠ claimer → lookupKey out.state.holdings h = lookupKey s.holdings h) ∧
      ∃ pre, out.messages = pre ++ [.send claimer out.sent] ∧
        ∀ m ∈ pre, ∃ a, m = Msg.adapterClaim a := by
  obtain ⟨out, hok, hsent, hunb, hoth, -, -, -, -, -, as, hmsg, -, -⟩ :=
    claimOp_ok_spec s claimer asset liquid claimableQ hd p al hreg hmem hhd hp hal
  refine ⟨out, hok, hsent, hunb, hoth, as.map Msg.adapterClaim, hmsg, ?_⟩
  intro m hm
  obtain ⟨a, -, rfl⟩ := List.mem_map.mp hm
  exact ⟨a, rfl⟩

/-- Closed witness for claim_settlement: pending 5 against liquid 10 settles
exactly 5. -/
theorem claim_settlement_witness :
    ∃ out, claimOp ⟨0, [0, 1], [(0, ⟨[], [], .active⟩), (1, ⟨[], [⟨10, 5⟩], .active⟩)], [10], [(10, [])]⟩ 1 false 10 10 (fun _ => 0) = .ok out ∧
      out.sent = min 5 (10 + out.totalClaimed) ∧
      holderUnbAmt out.state 1 10 = some (5 - out.sent) ∧
      (∀ h, h ≠ 1 → lookupKey out.state.holdings h
        = lookupKey [(0, (⟨[], [], .active⟩ : Holding)), (1, ⟨[], [⟨10, 5⟩], .active⟩)] h) ∧
      ∃ pre, out.messages = pre ++ [.send 1 out.sent] ∧
        ∀ m ∈ pre, ∃ a, m = Msg.adapterClaim a :=
  claim_settlement ⟨0, [0, 1], [(0, ⟨[], [], .active⟩), (1, ⟨[], [⟨10, 5⟩], .active⟩)], [10], [(10, [])]⟩ 1 10 10 (fun _ => 0) ⟨[], [⟨10, 5⟩], .active⟩ 5 []
    (by decide) (by decide) (by decide) (by decide) (by decide)

/-- C7 amended: claim fails with the no-unbondings error exactly when the
holder has no pending-unbonding entry of any amount for the asset; an entry
that is present, a zero amount included, lets the claim succeed, and the
entry is kept (with its decremented amount, possibly zero) rather than
removed. -/
theorem claim_requires_entry (s : State) (claimer asset : Addr)
    (liquid : Nat) (claimableQ : Addr → Nat) (hd : Holding)
    (hreg : asset ∈ s.assetList)
    (hmem : claimer ∈ s.holders)
    (hhd : lookupKey s.holdings claimer = some hd)
    (hal : (lookupKey s.allocations asset).isSome) :
    (getEntry? hd.unbondings asset = none →
      claimOp s claimer false asset liquid claimableQ = .error .noUnbondings)
    ∧ (∀ p, getEntry? hd.unbondings asset = some p →
        ∃ out, claimOp s claimer false asset liquid claimableQ = .ok out ∧
          holderUnbAmt out.state claimer asset = some (p - out.sent)) := by
  constructor
  · intro hnone
    simp [claimOp, hreg, hmem, hhd, hnone]
    rfl
  · intro p hp
    obtain ⟨al, hal2⟩ := Option.isSome_iff_exists.mp hal
    obtain ⟨out, hok, _, hunb, _, _⟩ :=
      claimOp_ok_spec s claimer asset liquid claimableQ hd p al hreg hmem hhd hp hal2
    exact ⟨out, hok, hunb⟩

/-- Closed witness for claim_requires_entry: a holder with a zero-amount
pending entry still claims successfully. -/
theorem claim_requires_entry_witness :
    ∃ out, claimOp ⟨0, [0, 1], [(0, ⟨[], [], .active⟩), (1, ⟨[], [⟨10, 0⟩], .active⟩)], [10], [(10, [])]⟩ 1 false 10 7 (fun _ => 0) = .ok out ∧
      holderUnbAmt out.state 1 10 = some (0 - out.sent) :=
  (claim_requires_entry ⟨0, [0, 1], [(0, ⟨[], [], .active⟩), (1, ⟨[], [⟨10, 0⟩], .active⟩)], [10], [(10, [])]⟩ 1 10 7 (fun _ => 0) ⟨[], [⟨10, 0⟩], .active⟩
    (by decide) (by decide) (by decide) (by decide)).2 0 (by decide)

/-- C7 counterexample: claiming a pending unbonding of 5 down to zero keeps
a zero-amount record in place, and an immediately following claim for the
same holder and asset succeeds instead of failing. -/
theorem claim_zero_entry_counterexample :
    ∃ out, claimOp ⟨0, [0, 1], [(0, ⟨[], [], .active⟩), (1, ⟨[], [⟨10, 5⟩], .active⟩)], [10], [(10, [])]⟩ 1 false 10 10 (fun _ => 0) = .ok out ∧
      holderUnbAmt out.state 1 10 = some 0 ∧
      ∃ out2, claimOp out.state 1 false 10 5 (fun _ => 0) = .ok out2 ∧
        out2.sent = 0 := by
  refine ⟨_, rfl, ?_, _, rfl, ?_⟩
  · decide
  · decide

theorem sumUnbondingsExcept_eval (holdings : List (Addr × Holding))
    (asset excl : Addr) :
    ∀ hs : List Addr, (∀ h ∈ hs, h ≠ excl → (lookupKey holdings h).isSome) →
    sumUnbondingsExcept holdings asset excl hs = .ok
      (((hs.filter (fun h => ¬ h == excl)).map (fun h =>
        (getEntry? ((lookupKey holdings h).getD default).unbondings asset).getD 0)).sum) := by
  intro hs
  induction hs with
  | nil => intro _; simp [sumUnbondingsExcept]
  | cons h rest ih =>
    intro hall
    have hrest := ih (fun h2 hh2 => hall h2 (List.mem_cons_of_mem _ hh2))
    by_cases he : h = excl
    · subst he
      simp [sumUnbondingsExcept, hrest]
    · obtain ⟨hd, hhd⟩ := Option.isSome_iff_exists.mp
        (hall h (List.mem_cons_self _ _) he)
      simp [sumUnbondingsExcept, hrest, he, hhd, Nat.add_comm]

theorem othersPending_setKey (s : State) (excl asset : Addr) (hd2 : Holding) :
    othersPending { s with holdings := setKey s.holdings excl hd2 } excl asset
      = othersPending s excl asset := by
  unfold othersPending
  refine congrArg List.sum (List.map_congr_left ?_)
  intro h hh
  have hne : h ≠ excl := by
    simp at hh
    exact hh.2
  rw [lookupKey_setKey_ne _ _ _ _ hne]

theorem unbondAdapters_msgs (q : Addr → Nat) :
    ∀ (l : List AllocationMeta) (n : Nat) m, m ∈ (unbondAdapters q l n).1 →
      ∃ a x, m = Msg.adapterUnbond a x := by
  intro l
  induction l with
  | nil => intro n m hm; simp [unbondAdapters] at hm
  | cons a rest ih =>
    intro n m hm
    by_cases hn : n = 0
    · subst hn; simp [unbondAdapters] at hm
    · by_cases hq : n > q a.contract
      · simp [unbondAdapters, hn, hq] at hm
        rcases hm with h | h
        · exact ⟨a.contract, q a.contract, h⟩
        · exact ih _ m h
      · simp [unbondAdapters, hn, hq] at hm
        exact ⟨a.contract, n, hm⟩

/-- Characterization of a successful unbond, shared by the unbond theorems:
the amount moves from the available balance to the pending unbondings, then
min(max(liquid − other pending, 0), amount) is settled immediately by one
direct transfer and deducted from the pending entry, and all remaining
messages are adapter unbond requests. -/
theorem unbond_ok_spec (s : State) (sender asset : Addr) (A liquid : Nat)
    (balQ unbQ : Addr → Nat) (hd : Holding) (b : Nat) (al : List AllocationMeta)
    (hreg : asset ∈ s.assetList)
    (hmem : sender ∈ s.holders)
    (hhd : lookupKey s.holdings sender = some hd)
    (hact : hd.status = .active)
    (hb : getEntry? hd.balances asset = some b)
    (hA : A ≤ b)
    (hall : ∀ h ∈ s.holders, h ≠ sender → (lookupKey s.holdings h).isSome)
    (hal : lookupKey s.allocations asset = some al) :
    ∃ out, unbond s sender false asset A liquid balQ unbQ = .ok out ∧
      holderBalAmt out.state sender asset = some (b - A) ∧
      holderUnbAmt out.state sender asset
        = some ((getEntry? hd.unbondings asset).getD 0 + A
            - min (liquid - othersPending s sender asset) A) ∧
      (∀ h, h ≠ sender → lookupKey out.state.holdings h = lookupKey s.holdings h) ∧
      (∀ r x, Msg.send r x ∈ out.messages →
        r = sender ∧ x = min (liquid - othersPending s sender asset) A) ∧
      (0 < min (liquid - othersPending s sender asset) A →
        Msg.send sender (min (liquid - othersPending s sender asset) A) ∈ out.messages) ∧
      out.state.holders = s.holders ∧
      out.state.treasury = s.treasury ∧
      out.state.assetList = s.assetList ∧
      out.state.allocations = s.allocations ∧
      ∃ ams, (out.messages = ams ∨
          out.messages = Msg.send sender (min (liquid - othersPending s sender asset) A) :: ams) ∧
        ∀ m ∈ ams, ∃ a x, m = Msg.adapterUnbond a x := by
  obtain ⟨bal2, hbal2, hbal2get, hbal2other⟩ := subEntry_ok hd.balances asset A b hb hA
  have hmove : unbondMove hd asset A
      = .ok { hd with balances := bal2, unbondings := addEntry hd.unbondings asset A } := by
    simp [unbondMove, hact, hb, Nat.not_lt.mpr hA, hbal2]
  have hu2 : getEntry? (addEntry hd.unbondings asset A) asset
      = some ((getEntry? hd.unbondings asset).getD 0 + A) :=
    getEntry?_addEntry_self _ _ _
  have hall1 : ∀ h ∈ s.holders, h ≠ sender →
      (lookupKey (setKey s.holdings sender { hd with balances := bal2, unbondings := addEntry hd.unbondings asset A }) h).isSome := by
    intro h hh hne
    rw [lookupKey_setKey_ne _ _ _ _ hne]
    exact hall h hh hne
  have hsum : sumUnbondingsExcept (setKey s.holdings sender { hd with balances := bal2, unbondings := addEntry hd.unbondings asset A }) asset sender s.holders
      = .ok (othersPending s sender asset) := by
    rw [sumUnbondingsExcept_eval _ asset sender s.holders hall1]
    exact congrArg Except.ok
      (othersPending_setKey s sender asset { hd with balances := bal2, unbondings := addEntry hd.unbondings asset A })
  have hres : (if othersPending s sender asset < liquid
      then liquid - othersPending s sender asset else 0)
      = liquid - othersPending s sender asset := by
    split
    · rfl
    · omega
  by_cases hRpos : 0 < liquid - othersPending s sender asset
  · by_cases hRA : liquid - othersPending s sender asset < A
    · -- partial immediate settlement of the reserves
      have hmin : min (liquid - othersPending s sender asset) A
          = liquid - othersPending s sender asset := Nat.min_eq_left hRA.le
      obtain ⟨l2, hl2, hl2get, hl2other⟩ := subEntry_ok (addEntry hd.unbondings asset A)
        asset (liquid - othersPending s sender asset)
        ((getEntry? hd.unbondings asset).getD 0 + A) hu2 (by omega)
      rcases hP : unbondAdapters unbQ (sortByBalance (refreshBals al balQ)) (A - (liquid - othersPending s sender asset)) with ⟨ms2, rem⟩
      have hsettle : settleDecrement { s with holdings := setKey s.holdings sender { hd with balances := bal2, unbondings := addEntry hd.unbondings asset A } } sender asset (liquid - othersPending s sender asset)
          = .ok { s with holdings := setKey (setKey s.holdings sender { hd with balances := bal2, unbondings := addEntry hd.unbondings asset A }) sender { hd with balances := bal2, unbondings := l2 } } := by
        simp [settleDecrement, lookupKey_setKey_self, hl2]
      refine ⟨⟨{ s with holdings := setKey (setKey s.holdings sender { hd with balances := bal2, unbondings := addEntry hd.unbondings asset A }) sender { hd with balances := bal2, unbondings := l2 } }, Msg.send sender (liquid - othersPending s sender asset) :: ms2, rem⟩, ?_, ?_, ?_, ?_, ?_, ?_, rfl, rfl, rfl, rfl, ?_⟩
      · simp [unbond, bind, Except.bind, pure, Except.pure, hreg, hmem, hhd, hmove, hsum, hres, hRpos, hRA, hsettle, hal, hP]
      · simp [holderBalAmt, lookupKey_setKey_self, hbal2get]
      · simp [holderUnbAmt, lookupKey_setKey_self, hl2get, hmin]
      · intro h hne
        simp [lookupKey_setKey_ne _ _ _ _ hne]
      · intro r x hrx
        rcases List.mem_cons.mp hrx with h | h
        · cases h
          exact ⟨rfl, hmin.symm⟩
        · have hm : Msg.send r x ∈ (unbondAdapters unbQ (sortByBalance (refreshBals al balQ)) (A - (liquid - othersPending s sender asset))).1 := by
            rw [hP]
            exact h
          obtain ⟨a2, x2, he⟩ := unbondAdapters_msgs unbQ _ _ _ hm
          exact absurd he (by simp)
      · intro _
        rw [hmin]
        exact List.mem_cons_self _ _
      · refine ⟨ms2, Or.inr (by rw [hmin]), ?_⟩
        intro m hm
        have hm2 : m ∈ (unbondAdapters unbQ (sortByBalance (refreshBals al balQ)) (A - (liquid - othersPending s sender asset))).1 := by
          rw [hP]
          exact hm
        exact unbondAdapters_msgs unbQ _ _ _ hm2
    · -- full immediate settlement of the requested amount
      have hAle : A ≤ liquid - othersPending s sender asset := Nat.not_lt.mp hRA
      have hmin : min (liquid - othersPending s sender asset) A = A :=
        Nat.min_eq_right hAle
      obtain ⟨l2, hl2, hl2get, hl2other⟩ := subEntry_ok (addEntry hd.unbondings asset A)
        asset A ((getEntry? hd.unbondings asset).getD 0 + A) hu2 (by omega)
      rcases hP : unbondAdapters unbQ (sortByBalance (refreshBals al balQ)) 0 with ⟨ms2, rem⟩
      have hsettle : settleDecrement { s with holdings := setKey s.holdings sender { hd with balances := bal2, unbondings := addEntry hd.unbondings asset A } } sender asset A
          = .ok { s with holdings := setKey (setKey s.holdings sender { hd with balances := bal2, unbondings := addEntry hd.unbondings asset A }) sender { hd with balances := bal2, unbondings := l2 } } := by
        simp [settleDecrement, lookupKey_setKey_self, hl2]
      refine ⟨⟨{ s with holdings := setKey (setKey s.holdings sender { hd with balances := bal2, unbondings := addEntry hd.unbondings asset A }) sender { hd with balances := bal2, unbondings := l2 } }, Msg.send sender A :: ms2, rem⟩, ?_, ?_, ?_, ?_, ?_, ?_, rfl, rfl, rfl, rfl, ?_⟩
      · simp [unbond, bind, Except.bind, pure, Except.pure, hreg, hmem, hhd, hmove, hsum, hres, hRpos, hRA, hsettle, hal, hP]
      · simp [holderBalAmt, lookupKey_setKey_self, hbal2get]
      · simp [holderUnbAmt, lookupKey_setKey_self, hl2get, hmin]
      · intro h hne
        simp [lookupKey_setKey_ne _ _ _ _ hne]
      · intro r x hrx
        rcases List.mem_cons.mp hrx with h | h
        · cases h
          exact ⟨rfl, hmin.symm⟩
        · have hm : Msg.send r x ∈ (unbondAdapters unbQ (sortByBalance (refreshBals al balQ)) 0).1 := by
            rw [hP]
            exact h
          obtain ⟨a2, x2, he⟩ := unbondAdapters_msgs unbQ _ _ _ hm
          exact absurd he (by simp)
      · intro _
        rw [hmin]
        exact List.mem_cons_self _ _
      · refine ⟨ms2, Or.inr (by rw [hmin]), ?_⟩
        intro m hm
        have hm2 : m ∈ (unbondAdapters unbQ (sortByBalance (refreshBals al balQ)) 0).1 := by
          rw [hP]
          exact hm
        exact unbondAdapters_msgs unbQ _ _ _ hm2
  · -- nothing is immediately payable
    have hR0 : liquid - othersPending s sender asset = 0 := Nat.eq_zero_of_not_pos hRpos
    have hmin : min (liquid - othersPending s sender asset) A = 0 := by
      rw [hR0]
      exact Nat.zero_min A
    rcases hP : unbondAdapters unbQ (sortByBalance (refreshBals al balQ)) A with ⟨ms2, rem⟩
    refine ⟨⟨{ s with holdings := setKey s.holdings sender { hd with balances := bal2, unbondings := addEntry hd.unbondings asset A } }, ms2, rem⟩, ?_, ?_, ?_, ?_, ?_, ?_, rfl, rfl, rfl, rfl, ?_⟩
    · simp [unbond, bind, Except.bind, pure, Except.pure, hreg, hmem, hhd, hmove, hsum, hres, hRpos, hal, hP]
    · simp [holderBalAmt, lookupKey_setKey_self, hbal2get]
    · simp [holderUnbAmt, lookupKey_setKey_self, hu2, hmin]
    · intro h hne
      simp [lookupKey_setKey_ne _ _ _ _ hne]
    · intro r x hrx
      have hm : Msg.send r x ∈ (unbondAdapters unbQ (sortByBalance (refreshBals al balQ)) A).1 := by
        rw [hP]
        exact hrx
      obtain ⟨a2, x2, he⟩ := unbondAdapters_msgs unbQ _ _ _ hm
      exact absurd he (by simp)
    · intro hlt
      rw [hmin] at hlt
      exact absurd hlt (lt_irrefl 0)
    · refine ⟨ms2, Or.inl rfl, ?_⟩
      intro m hm
      have hm2 : m ∈ (unbondAdapters unbQ (sortByBalance (refreshBals al balQ)) A).1 := by
        rw [hP]
        exact hm
      exact unbondAdapters_msgs unbQ _ _ _ hm2

/-- C5: in a successful unbond the immediately settled amount is
min(liquid − other pending, A) with a truncated subtraction (which is
min(max(liquid − other, 0), A)); exactly that amount is sent directly to
the unbonder (every direct transfer in the queue targets the unbonder with
exactly that amount) and the pending entry is A plus the prior pending
minus that amount.  With other pending at least the liquid balance nothing
is settled and the pending entry keeps the full amount. -/
theorem unbond_immediate_settlement (s : State) (sender asset : Addr)
    (A liquid : Nat) (balQ unbQ : Addr → Nat) (hd : Holding) (b : Nat)
    (al : List AllocationMeta)
    (hreg : asset ∈ s.assetList)
    (hmem : sender ∈ s.holders)
    (hhd : lookupKey s.holdings sender = some hd)
    (hact : hd.status = .active)
    (hb : getEntry? hd.balances asset = some b)
    (hA : A ≤ b)
    (hall : ∀ h ∈ s.holders, h ≠ sender → (lookupKey s.holdings h).isSome)
    (hal : lookupKey s.allocations asset = some al) :
    ∃ out, unbond s sender false asset A liquid balQ unbQ = .ok out ∧
      holderUnbAmt out.state sender asset
        = some ((getEntry? hd.unbondings asset).getD 0 + A
            - min (liquid - othersPending s sender asset) A) ∧
      (∀ r x, Msg.send r x ∈ out.messages →
        r = sender ∧ x = min (liquid - othersPending s sender asset) A) ∧
      (0 < min (liquid - othersPending s sender asset) A →
        Msg.send sender (min (liquid - othersPending s sender asset) A) ∈ out.messages) := by
  obtain ⟨out, hok, -, hunb, -, hsend, hsend2, -⟩ :=
    unbond_ok_spec s sender asset A liquid balQ unbQ hd b al hreg hmem hhd hact hb hA hall hal
  exact ⟨out, hok, hunb, hsend, hsend2⟩

/-- Closed witness for unbond_immediate_settlement: the unbond reservation
scenario, where holder 0 already has 100 pending and holder 1 unbonds 100
against a liquid balance of 100, settles nothing immediately and leaves the
full 100 pending. -/
theorem unbond_immediate_settlement_witness :
    ∃ out, unbond ⟨0, [0, 1], [(0, ⟨[], [⟨10, 100⟩], .active⟩), (1, ⟨[⟨10, 100⟩], [], .active⟩)], [10], [(10, [])]⟩ 1 false 10 100 100 (fun _ => 0) (fun _ => 0) = .ok out ∧
      holderUnbAmt out.state 1 10 = some 100 := by
  obtain ⟨out, hok, hunb, _, _⟩ := unbond_immediate_settlement
    ⟨0, [0, 1], [(0, ⟨[], [⟨10, 100⟩], .active⟩), (1, ⟨[⟨10, 100⟩], [], .active⟩)], [10], [(10, [])]⟩
    1 10 100 100 (fun _ => 0) (fun _ => 0) ⟨[⟨10, 100⟩], [], .active⟩ 100 []
    (by decide) (by decide) (by decide) (by decide) (by decide) (by decide)
    (by
      intro h hh hne
      simp at hh
      rcases hh with rfl | rfl
      · decide
      · exact absurd rfl hne) (by decide)
  refine ⟨out, hok, ?_⟩
  rw [hunb]
  decide

/-- C8 amended: unbond fails with the insufficient-balance error when the
holder has a balance entry for the asset smaller than the amount; with no
balance entry at all it fails with the distinct no-holdings error; when the
entry covers the amount, exactly that amount moves from the available
balance into the pending unbondings (the pending entry then shrinks by the
immediately settled part), all before any settlement messages execute.  A
failed unbond aborts with no state change. -/
theorem unbond_insufficient_balance (s : State) (sender asset : Addr)
    (A liquid : Nat) (balQ unbQ : Addr → Nat) (hd : Holding)
    (hreg : asset ∈ s.assetList)
    (hmem : sender ∈ s.holders)
    (hhd : lookupKey s.holdings sender = some hd)
    (hact : hd.status = .active) :
    (getEntry? hd.balances asset = none →
      unbond s sender false asset A liquid balQ unbQ = .error .noHoldings)
    ∧ (∀ b, getEntry? hd.balances asset = some b → b < A →
        unbond s sender false asset A liquid balQ unbQ = .error .insufficientBalance)
    ∧ (∀ b al, getEntry? hd.balances asset = some b → A ≤ b →
        (∀ h ∈ s.holders, h ≠ sender → (lookupKey s.holdings h).isSome) →
        lookupKey s.allocations asset = some al →
        ∃ out, unbond s sender false asset A liquid balQ unbQ = .ok out ∧
          holderBalAmt out.state sender asset = some (b - A) ∧
          holderUnbAmt out.state sender asset
            = some ((getEntry? hd.unbondings asset).getD 0 + A
                - min (liquid - othersPending s sender asset) A) ∧
          (∀ h, h ≠ sender →
            lookupKey out.state.holdings h = lookupKey s.holdings h)) := by
  refine ⟨?_, ?_, ?_⟩
  · intro hnone
    simp [unbond, bind, Except.bind, pure, Except.pure, hreg, hmem, hhd, unbondMove, hact, hnone]
  · intro b hb hlt
    simp [unbond, bind, Except.bind, pure, Except.pure, hreg, hmem, hhd, unbondMove, hact, hb, hlt]
  · intro b al hb hA hall hal
    obtain ⟨out, hok, hbal, hunb, hoth, -, -, -⟩ :=
      unbond_ok_spec s sender asset A liquid balQ unbQ hd b al hreg hmem hhd hact hb hA hall hal
    exact ⟨out, hok, hbal, hunb, hoth⟩

/-- Closed witness for unbond_insufficient_balance: available balance 80,
unbond of 100 fails with the insufficient-balance error. -/
theorem unbond_insufficient_balance_witness :
    unbond ⟨0, [0, 1], [(0, ⟨[], [], .active⟩), (1, ⟨[⟨10, 80⟩], [], .active⟩)], [10], [(10, [])]⟩ 1 false 10 100 50 (fun _ => 0) (fun _ => 0)
      = .error .insufficientBalance :=
  (unbond_insufficient_balance
    ⟨0, [0, 1], [(0, ⟨[], [], .active⟩), (1, ⟨[⟨10, 80⟩], [], .active⟩)], [10], [(10, [])]⟩
    1 10 100 50 (fun _ => 0) (fun _ => 0) ⟨[⟨10, 80⟩], [], .active⟩
    (by decide) (by decide) (by decide) (by decide)).2.1 80 (by decide) (by decide)

/-- C8 counterexample: an active holder with no balance entry for the asset
unbonds and receives the no-holdings error, not the insufficient-balance
error the claim names, even though the available balance (zero) is below
the requested amount. -/
theorem unbond_no_entry_counterexample :
    unbond ⟨0, [0, 1], [(0, ⟨[], [], .active⟩), (1, ⟨[], [], .active⟩)], [10], [(10, [])]⟩ 1 false 10 5 0 (fun _ => 0) (fun _ => 0) = .error .noHoldings
    ∧ Err.noHoldings ≠ Err.insufficientBalance := by
  constructor
  · rfl
  · decide

/-- C3 amended: for an under-funded allocation past its tolerance, with gap
the funding shortfall: when the gap is strictly below the running liquid
balance it is funded in full from the balance (the allowance is untouched,
though a zero-amount allowance action is still queued when the allowance is
positive); when the balance is positive but does not strictly exceed the
gap, the whole balance is sent and the rebalance loop breaks without
drawing anything from the allowance, even when a remainder is unmet and the
allowance is positive; only when the balance is zero is the allowance
drawn: in full when it strictly exceeds the gap, otherwise the whole
allowance is sent and the loop breaks.  A shortfall never produces an
error: the waterfall is a total function. -/
theorem fundGap_spec (gap balance allowance : Nat) :
    (gap < balance →
      fundGap gap balance allowance
        = ⟨balance - gap, allowance, gap, 0, [gap],
            if allowance = 0 then [] else [0], false⟩)
    ∧ (balance ≤ gap → balance ≠ 0 →
      fundGap gap balance allowance = ⟨0, allowance, 0, 0, [balance], [], true⟩)
    ∧ (balance = 0 → allowance = 0 →
      fundGap gap balance allowance = ⟨0, 0, 0, 0, [], [], false⟩)
    ∧ (balance = 0 → allowance ≠ 0 → gap < allowance →
      fundGap gap balance allowance
        = ⟨0, allowance - gap, 0, gap, [], [gap], false⟩)
    ∧ (balance = 0 → allowance ≠ 0 → allowance ≤ gap →
      fundGap gap balance allowance
        = ⟨0, 0, 0, allowance, [], [allowance], true⟩) := by
  refine ⟨?_, ?_, ?_, ?_, ?_⟩
  · intro h
    by_cases ha : allowance = 0
    · simp [fundGap, h, ha]
    · simp [fundGap, h, ha]
  · intro h hb
    simp [fundGap, Nat.not_lt.mpr h, hb]
  · intro hb ha
    simp [fundGap, hb, ha]
  · intro hb ha h
    simp [fundGap, hb, ha, h]
  · intro hb ha h
    simp [fundGap, hb, ha, Nat.not_lt.mpr h]

/-- Closed witness for fundGap_spec: a gap of 70 against balance 30 and
allowance 100 sends the whole balance, breaks, and draws nothing from the
allowance. -/
theorem fundGap_spec_witness :
    fundGap 70 30 100 = ⟨0, 100, 0, 0, [30], [], true⟩ :=
  (fundGap_spec 70 30 100).2.1 (by decide) (by decide)

/-- C3 counterexample: one Amount allocation with target 100 and adapter
balance 0, liquid balance 30, allowance 100: the gap of 100 exceeds the
balance, so update sends the whole balance of 30 and stops; the unmet
remainder of 70 is not drawn from the positive allowance (no send-from
action is queued and allowance_used stays 0), contradicting the claimed
balance-then-allowance waterfall. -/
theorem update_waterfall_counterexample :
    ∃ out, update ⟨0, [0, 1], [(0, ⟨[], [], .active⟩), (1, ⟨[], [], .active⟩)], [10], [(10, [⟨some nickA, 20, 100, .amount, 0, 0⟩])]⟩ 10 30 100 (fun _ => 0) = .ok out ∧
      out.sendActions = [(20, 30)] ∧
      out.sendFromActions = [] ∧
      out.allowanceUsed = 0 := by
  refine ⟨_, rfl, ?_, ?_, ?_⟩
  · rfl
  · rfl
  · rfl

theorem driftAdjust_spec (s : State) (asset : Addr) (outT P2 : Nat)
    (tH : Holding) (t : Nat)
    (hth : lookupKey s.holdings s.treasury = some tH)
    (hentry : getEntry? tH.balances asset = some t) :
    (P2 ≤ outT + t → ∃ s2, driftAdjust s asset outT P2 = .ok s2 ∧
      holderBalAmt s2 s.treasury asset = some (t + outT - P2) ∧
      (∀ h, h ≠ s.treasury → lookupKey s2.holdings h = lookupKey s.holdings h) ∧
      s2.treasury = s.treasury ∧ s2.holders = s.holders ∧
      ∃ tH2, lookupKey s2.holdings s.treasury = some tH2 ∧
        getEntry? tH2.balances asset = some (t + outT - P2) ∧
        tH2.unbondings = tH.unbondings)
    ∧ (outT + t < P2 → driftAdjust s asset outT P2 = .error .underflow) := by
  constructor
  · intro hle
    rcases Nat.lt_trichotomy outT P2 with hlt | heq | hgt
    · have hx : P2 - outT ≤ t := by omega
      have harith : t - (P2 - outT) = t + outT - P2 := by omega
      obtain ⟨l2, hl2, hget, _⟩ := subEntry_ok tH.balances asset (P2 - outT) t hentry hx
      refine ⟨{ s with holdings := setKey s.holdings s.treasury { tH with balances := l2 } }, ?_, ?_, ?_, rfl, rfl, ?_⟩
      · simp [driftAdjust, bind, Except.bind, pure, Except.pure, hlt, Nat.lt_asymm hlt, hth, hentry, hl2]
      · simp [holderBalAmt, lookupKey_setKey_self, hget, harith]
      · exact fun h hne => lookupKey_setKey_ne _ _ _ _ hne
      · exact ⟨{ tH with balances := l2 }, lookupKey_setKey_self _ _ _, by rw [hget, harith], rfl⟩
    · subst heq
      refine ⟨s, ?_, ?_, fun h _ => rfl, rfl, rfl, ?_⟩
      · simp [driftAdjust, lt_irrefl]
        rfl
      · simp [holderBalAmt, hth, hentry]
      · refine ⟨tH, hth, ?_, rfl⟩
        rw [hentry]
        congr 1
        omega
    · have harith : t + (outT - P2) = t + outT - P2 := by omega
      refine ⟨{ s with holdings := setKey s.holdings s.treasury { tH with balances := addEntry tH.balances asset (outT - P2) } }, ?_, ?_, ?_, rfl, rfl, ?_⟩
      · simp [driftAdjust, bind, Except.bind, pure, Except.pure, hgt, hth, hentry]
      · simp [holderBalAmt, lookupKey_setKey_self, getEntry?_addEntry_self, hentry, harith]
      · exact fun h hne => lookupKey_setKey_ne _ _ _ _ hne
      · refine ⟨{ tH with balances := addEntry tH.balances asset (outT - P2) }, lookupKey_setKey_self _ _ _, ?_, rfl⟩
        rw [getEntry?_addEntry_self, hentry]
        simp [harith]
  · intro hlt2
    have hlt : outT < P2 := by omega
    simp [driftAdjust, bind, Except.bind, pure, Except.pure, hlt, Nat.lt_asymm hlt, hth, hentry,
      subEntry_underflow tH.balances asset (P2 - outT) t hentry (by omega)]

/-- C4 amended: at the end of a rebalance, with t0 the treasury balance
entry before the call (zero when absent, and the allowance-used credit
always creates the entry), the treasury entry for the asset ends at
t0 + investable_total − holder_principal whenever
holder_principal ≤ t0 + investable_total: a surplus over the realized
principal is credited and a deficit is debited.  When the deficit exceeds
the treasury entry (after the allowance-used credit) the whole update
aborts with an arithmetic underflow and no state is changed, instead of
debiting. -/
theorem update_drift (s : State) (asset : Addr) (liquid allowance : Nat)
    (adapterBalQ : Addr → Nat) (al : List AllocationMeta) (tHold : Holding)
    (hU hP outT : Nat) (plan : PlanSt)
    (hreg : asset ∈ s.assetList)
    (hal : lookupKey s.allocations asset = some al)
    (hne : al.isEmpty = false)
    (hsums : holderSums s.holdings asset s.holders = .ok (hU, hP))
    (hsub : checkedSub (amountTotalOf (refreshBals al adapterBalQ) + portionTotalOf (refreshBals al adapterBalQ) + liquid) hU = .ok outT)
    (hplan : planLoop (outT + allowance) ⟨liquid, allowance, 0, [], [], [], 0, 0⟩ (typeSorted (refreshBals al adapterBalQ)) = .ok plan)
    (hthold : lookupKey s.holdings s.treasury = some tHold) :
    (hP ≤ (getEntry? tHold.balances asset).getD 0 + outT →
      ∃ out, update s asset liquid allowance adapterBalQ = .ok out ∧
        out.allowanceUsed = plan.allowanceUsed ∧
        holderBalAmt out.state s.treasury asset
          = some ((getEntry? tHold.balances asset).getD 0 + outT - hP))
    ∧ ((getEntry? tHold.balances asset).getD 0 + outT < hP →
        update s asset liquid allowance adapterBalQ = .error .underflow) := by
  have hentry2 : getEntry? (addEntry tHold.balances asset plan.allowanceUsed) asset
      = some ((getEntry? tHold.balances asset).getD 0 + plan.allowanceUsed) :=
    getEntry?_addEntry_self _ _ _
  have hth2 : lookupKey (setKey s.holdings s.treasury { tHold with balances := addEntry tHold.balances asset plan.allowanceUsed }) s.treasury
      = some { tHold with balances := addEntry tHold.balances asset plan.allowanceUsed } :=
    lookupKey_setKey_self _ _ _
  have hdrift := driftAdjust_spec
    { s with holdings := setKey s.holdings s.treasury { tHold with balances := addEntry tHold.balances asset plan.allowanceUsed } }
    asset outT (hP + plan.allowanceUsed)
    { tHold with balances := addEntry tHold.balances asset plan.allowanceUsed }
    ((getEntry? tHold.balances asset).getD 0 + plan.allowanceUsed) hth2 hentry2
  constructor
  · intro hok
    obtain ⟨s3, hs3, hbal3, _, _, _⟩ := hdrift.1 (by omega)
    refine ⟨⟨s3, plan.sends, plan.sendFroms, plan.unbonds, plan.allowanceUsed, plan.balanceUsed⟩, ?_, rfl, ?_⟩
    · simp [update, bind, Except.bind, pure, Except.pure, hreg, hal, hne, hsums, hsub, hplan, hthold, hs3]
    · rw [hbal3]
      have harith : (getEntry? tHold.balances asset).getD 0 + plan.allowanceUsed + outT - (hP + plan.allowanceUsed)
          = (getEntry? tHold.balances asset).getD 0 + outT - hP := by omega
      rw [harith]
  · intro hfail
    have herr := hdrift.2 (by omega)
    simp [update, bind, Except.bind, pure, Except.pure, hreg, hal, hne, hsums, hsub, hplan, hthold, herr]

/-- Closed witness for update_drift: the spec rebalance scenario (one Amount
allocation with target 50, adapter balance 0, liquid 200) succeeds and the
drift of 200 is credited to the treasury entry. -/
theorem update_drift_witness :
    ∃ out, update ⟨0, [0, 1], [(0, ⟨[], [], .active⟩), (1, ⟨[], [], .active⟩)], [10], [(10, [⟨some nickA, 20, 50, .amount, 0, 0⟩])]⟩ 10 200 0 (fun _ => 0) = .ok out ∧
      out.allowanceUsed = 0 ∧
      holderBalAmt out.state 0 10 = some 200 := by
  obtain ⟨out, hok, haw, hbal⟩ := (update_drift
    ⟨0, [0, 1], [(0, ⟨[], [], .active⟩), (1, ⟨[], [], .active⟩)], [10], [(10, [⟨some nickA, 20, 50, .amount, 0, 0⟩])]⟩
    10 200 0 (fun _ => 0) [⟨some nickA, 20, 50, .amount, 0, 0⟩] ⟨[], [], .active⟩
    0 0 200 ⟨150, 0, 50, [(20, 50)], [], [], 0, 50⟩
    (by decide) (by decide) (by decide) rfl rfl rfl (by decide)).1 (by decide)
  exact ⟨out, hok, haw, hbal⟩

/-- C4 counterexample: treasury with no balance entry for the asset, one
holder with principal 10 and an investable total of 0: the deficit of 10
cannot be debited from the zero treasury entry, so update aborts with an
underflow instead of debiting the treasury balance. -/
theorem update_drift_counterexample :
    update ⟨0, [0, 1], [(0, ⟨[], [], .active⟩), (1, ⟨[⟨10, 10⟩], [], .active⟩)], [10], [(10, [⟨some nickA, 20, 0, .portion, 0, 0⟩])]⟩ 10 0 0 (fun _ => 0)
      = .error .underflow := by
  rfl

theorem entrySum_congr (f : Holding → List Balance)
    (holdings1 holdings2 : List (Addr × Holding)) (asset : Addr) (hs : List Addr)
    (h : ∀ x ∈ hs, lookupKey holdings2 x = lookupKey holdings1 x) :
    entrySum f holdings2 asset hs = entrySum f holdings1 asset hs := by
  unfold entrySum
  exact congrArg List.sum (List.map_congr_left (fun x hx => by rw [h x hx]))

theorem entrySum_delta (f : Holding → List Balance)
    (holdings1 holdings2 : List (Addr × Holding)) (asset x : Addr) :
    ∀ hs : List Addr, hs.Nodup → x ∈ hs →
    (∀ h ∈ hs, h ≠ x → lookupKey holdings2 h = lookupKey holdings1 h) →
    entrySum f holdings2 asset hs
        + (getEntry? (f ((lookupKey holdings1 x).getD default)) asset).getD 0
      = entrySum f holdings1 asset hs
        + (getEntry? (f ((lookupKey holdings2 x).getD default)) asset).getD 0 := by
  intro hs
  induction hs with
  | nil => intro _ hx; simp at hx
  | cons a rest ih =>
    intro hnd hx hcong
    have hnd2 := hnd.of_cons
    rcases List.mem_cons.mp hx with heq | hx2
    · subst heq
      have hnotin : x ∉ rest := (List.nodup_cons.mp hnd).1
      have hrest : entrySum f holdings2 asset rest = entrySum f holdings1 asset rest := by
        refine entrySum_congr f holdings1 holdings2 asset rest ?_
        intro y hy
        refine hcong y (List.mem_cons_of_mem _ hy) ?_
        intro heq
        exact hnotin (heq ▸ hy)
      simp only [entrySum, List.map_cons, List.sum_cons]
      have h2 := hrest
      unfold entrySum at h2
      omega
    · have hax : a ≠ x := by
        intro heq
        exact (List.nodup_cons.mp hnd).1 (heq ▸ hx2)
      have hhead : lookupKey holdings2 a = lookupKey holdings1 a :=
        hcong a (List.mem_cons_self _ _) hax
      have htail := ih hnd2 hx2 (fun h hh hne => hcong h (List.mem_cons_of_mem _ hh) hne)
      simp only [entrySum, List.map_cons, List.sum_cons, hhead]
      unfold entrySum at htail
      omega

theorem holderBalAmt_getD (s : State) (x tok : Addr) (v : Nat)
    (h : holderBalAmt s x tok = some v) :
    (getEntry? ((lookupKey s.holdings x).getD default).balances tok).getD 0 = v := by
  unfold holderBalAmt at h
  cases hl : lookupKey s.holdings x with
  | none => rw [hl] at h; simp at h
  | some hd =>
    rw [hl] at h
    simp at h
    simp [h]

theorem holderUnbAmt_getD (s : State) (x tok : Addr) (v : Nat)
    (h : holderUnbAmt s x tok = some v) :
    (getEntry? ((lookupKey s.holdings x).getD default).unbondings tok).getD 0 = v := by
  unfold holderUnbAmt at h
  cases hl : lookupKey s.holdings x with
  | none => rw [hl] at h; simp at h
  | some hd =>
    rw [hl] at h
    simp at h
    simp [h]

theorem poolModify_addrs (a : Addr) (f : AdapterSt → AdapterSt)
    (hf : ∀ p, (f p).addr = p.addr) :
    ∀ pool : List AdapterSt, poolAddrs (poolModify pool a f) = poolAddrs pool := by
  intro pool
  induction pool with
  | nil => simp [poolModify]
  | cons p ps ih =>
    by_cases hp : p.addr = a
    · simp [poolModify, poolAddrs, hp, hf]
    · simp only [poolModify, poolAddrs, List.map_cons] at *
      simp [hp, ih]

theorem poolFind_none (a : Addr) :
    ∀ pool : List AdapterSt, a ∉ poolAddrs pool → poolFind pool a = none := by
  intro pool
  induction pool with
  | nil => intro _; rfl
  | cons p ps ih =>
    intro h
    simp [poolAddrs] at h
    have h2 : a ∉ poolAddrs ps := by
      simp [poolAddrs]
      exact h.2
    simp [poolFind, Ne.symm h.1]
    exact ih h2

theorem poolFind_mem (a : Addr) :
    ∀ pool : List AdapterSt, a ∈ poolAddrs pool →
      ∃ p, poolFind pool a = some p ∧ p.addr = a := by
  intro pool
  induction pool with
  | nil => intro h; simp [poolAddrs] at h
  | cons p ps ih =>
    intro h
    by_cases hp : p.addr = a
    · exact ⟨p, by simp [poolFind, hp], hp⟩
    · simp [poolAddrs, Ne.symm hp] at h
      obtain ⟨q, hq1, hq2⟩ := ih (by simp [poolAddrs, h])
      exact ⟨q, by simp [poolFind, hp, hq1], hq2⟩

theorem poolModify_none_eq (a : Addr) (f : AdapterSt → AdapterSt) :
    ∀ pool : List AdapterSt, poolFind pool a = none → poolModify pool a f = pool := by
  intro pool
  induction pool with
  | nil => intro _; rfl
  | cons p ps ih =>
    intro h
    by_cases hp : p.addr = a
    · simp [poolFind, hp] at h
    · simp [poolFind, hp] at h
      simp [poolModify, hp, ih h]

theorem poolTotal_modify (a : Addr) (f : AdapterSt → AdapterSt) :
    ∀ (pool : List AdapterSt) (p : AdapterSt), poolFind pool a = some p →
      poolTotal (poolModify pool a f) + p.staked + p.claimable
        = poolTotal pool + (f p).staked + (f p).claimable := by
  intro pool
  induction pool with
  | nil => intro p h; simp [poolFind] at h
  | cons q ps ih =>
    intro p h
    by_cases hq : q.addr = a
    · simp [poolFind, hq] at h
      subst h
      simp [poolModify, hq, poolTotal]
      omega
    · simp [poolFind, hq] at h
      have := ih p h
      simp [poolModify, hq, poolTotal] at *
      omega

theorem poolClaimableQ_modify_ne (a b : Addr) (f : AdapterSt → AdapterSt)
    (hf : ∀ p, (f p).addr = p.addr) (hne : b ≠ a) :
    ∀ pool : List AdapterSt,
      poolClaimableQ (poolModify pool a f) b = poolClaimableQ pool b := by
  intro pool
  induction pool with
  | nil => rfl
  | cons p ps ih =>
    by_cases hp : p.addr = a
    · simp [poolModify, poolClaimableQ, poolFind, hp, hf, Ne.symm hne]
    · by_cases hpb : p.addr = b
      · simp [poolModify, poolClaimableQ, poolFind, hp, hpb, hne]
      · simp [poolModify, poolClaimableQ, poolFind, hp, hpb]
        simpa [poolClaimableQ] using ih

theorem applyMsg_adapterUnbond (env : Nat × List AdapterSt) (a : Addr) (x : Nat) :
    (applyMsg env (.adapterUnbond a x)).1 = env.1 ∧
    envTotal (applyMsg env (.adapterUnbond a x)) = envTotal env ∧
    poolAddrs (applyMsg env (.adapterUnbond a x)).2 = poolAddrs env.2 := by
  have heq : applyMsg env (.adapterUnbond a x) = (env.1, poolModify env.2 a (fun p => { p with staked := p.staked - min x p.staked, claimable := p.claimable + min x p.staked })) := by
    simp only [applyMsg]
  rw [heq]
  refine ⟨rfl, ?_, poolModify_addrs a (fun p => { p with staked := p.staked - min x p.staked, claimable := p.claimable + min x p.staked }) (fun p => rfl) env.2⟩
  unfold envTotal
  cases hf : poolFind env.2 a with
  | none => rw [poolModify_none_eq a _ env.2 hf]
  | some p =>
    have ht := poolTotal_modify a (fun p => { p with staked := p.staked - min x p.staked, claimable := p.claimable + min x p.staked }) env.2 p hf
    simp only at ht ⊢
    omega

theorem applyMsg_adapterClaim (env : Nat × List AdapterSt) (a : Addr) :
    (applyMsg env (.adapterClaim a)).1 = env.1 + poolClaimableQ env.2 a ∧
    envTotal (applyMsg env (.adapterClaim a)) = envTotal env ∧
    poolAddrs (applyMsg env (.adapterClaim a)).2 = poolAddrs env.2 := by
  cases hf : poolFind env.2 a with
  | none =>
    have heq : applyMsg env (.adapterClaim a) = env := by
      simp only [applyMsg]
      rw [hf]
    rw [heq]
    simp [poolClaimableQ, hf]
  | some p =>
    have heq : applyMsg env (.adapterClaim a) = (env.1 + p.claimable, poolModify env.2 a (fun q => { q with claimable := 0 })) := by
      simp only [applyMsg]
      rw [hf]
    rw [heq]
    have ht := poolTotal_modify a (fun q => { q with claimable := 0 }) env.2 p hf
    refine ⟨by simp [poolClaimableQ, hf], ?_, poolModify_addrs a (fun q => { q with claimable := 0 }) (fun q => rfl) env.2⟩
    unfold envTotal
    simp only at ht ⊢
    omega

theorem applyMsg_send_pool (env : Nat × List AdapterSt) (r : Addr) (x : Nat)
    (hr : r ∈ poolAddrs env.2) (hx : x ≤ env.1) :
    (applyMsg env (.send r x)).1 = env.1 - x ∧
    envTotal (applyMsg env (.send r x)) = envTotal env ∧
    poolAddrs (applyMsg env (.send r x)).2 = poolAddrs env.2 := by
  have heq : applyMsg env (.send r x) = (env.1 - x, poolModify env.2 r (fun q => { q with staked := q.staked + x })) := by
    simp only [applyMsg]
  rw [heq]
  obtain ⟨p, hp, _⟩ := poolFind_mem r env.2 hr
  have ht := poolTotal_modify r (fun q => { q with staked := q.staked + x }) env.2 p hp
  refine ⟨rfl, ?_, poolModify_addrs r (fun q => { q with staked := q.staked + x }) (fun q => rfl) env.2⟩
  unfold envTotal
  simp only at ht ⊢
  omega

theorem applyMsg_send_out (env : Nat × List AdapterSt) (r : Addr) (x : Nat)
    (hr : r ∉ poolAddrs env.2) :
    applyMsg env (.send r x) = (env.1 - x, env.2) := by
  have heq : applyMsg env (.send r x) = (env.1 - x, poolModify env.2 r (fun q => { q with staked := q.staked + x })) := by
    simp only [applyMsg]
  rw [heq, poolModify_none_eq r _ env.2 (poolFind_none r env.2 hr)]

theorem applyMsg_sendFrom_pool (env : Nat × List AdapterSt) (o r : Addr) (x : Nat)
    (hr : r ∈ poolAddrs env.2) :
    (applyMsg env (.sendFrom o r x)).1 = env.1 ∧
    envTotal (applyMsg env (.sendFrom o r x)) = envTotal env + x ∧
    poolAddrs (applyMsg env (.sendFrom o r x)).2 = poolAddrs env.2 := by
  have heq : applyMsg env (.sendFrom o r x) = (env.1, poolModify env.2 r (fun q => { q with staked := q.staked + x })) := by
    simp only [applyMsg]
  rw [heq]
  obtain ⟨p, hp, _⟩ := poolFind_mem r env.2 hr
  have ht := poolTotal_modify r (fun q => { q with staked := q.staked + x }) env.2 p hp
  refine ⟨rfl, ?_, poolModify_addrs r (fun q => { q with staked := q.staked + x }) (fun q => rfl) env.2⟩
  unfold envTotal
  simp only at ht ⊢
  omega

theorem applyMsgs_adapterUnbonds (ms : List Msg)
    (hms : ∀ m ∈ ms, ∃ a x, m = Msg.adapterUnbond a x) :
    ∀ env : Nat × List AdapterSt,
      (applyMsgs env ms).1 = env.1 ∧
      envTotal (applyMsgs env ms) = envTotal env ∧
      poolAddrs (applyMsgs env ms).2 = poolAddrs env.2 := by
  induction ms with
  | nil => intro env; exact ⟨rfl, rfl, rfl⟩
  | cons m rest ih =>
    intro env
    obtain ⟨a, x, rfl⟩ := hms m (List.mem_cons_self _ _)
    have h1 := applyMsg_adapterUnbond env a x
    have h2 := ih (fun m hm => hms m (List.mem_cons_of_mem _ hm)) (applyMsg env (.adapterUnbond a x))
    unfold applyMsgs at *
    simp only [List.foldl_cons]
    exact ⟨by rw [h2.1, h1.1], by rw [h2.2.1, h1.2.1], by rw [h2.2.2, h1.2.2]⟩

theorem applyMsgs_claims (pool0 : List AdapterSt) :
    ∀ (as : List Addr), as.Nodup →
    ∀ env : Nat × List AdapterSt,
      (∀ b ∈ as, poolClaimableQ env.2 b = poolClaimableQ pool0 b) →
      (applyMsgs env (as.map Msg.adapterClaim)).1
          = env.1 + (as.map (poolClaimableQ pool0)).sum ∧
      envTotal (applyMsgs env (as.map Msg.adapterClaim)) = envTotal env ∧
      poolAddrs (applyMsgs env (as.map Msg.adapterClaim)).2 = poolAddrs env.2 := by
  intro as
  induction as with
  | nil => intro _ env _; exact ⟨by simp [applyMsgs], rfl, rfl⟩
  | cons a rest ih =>
    intro hnd env hq
    have h1 := applyMsg_adapterClaim env a
    have hq2 : ∀ b ∈ rest, poolClaimableQ (applyMsg env (.adapterClaim a)).2 b
        = poolClaimableQ pool0 b := by
      intro b hb
      have hba : b ≠ a := by
        intro heq
        exact (List.nodup_cons.mp hnd).1 (heq ▸ hb)
      rw [← hq b (List.mem_cons_of_mem _ hb)]
      cases hf : poolFind env.2 a with
      | none =>
        have heq : applyMsg env (.adapterClaim a) = env := by
          simp only [applyMsg]
          rw [hf]
        rw [heq]
      | some p =>
        have heq : applyMsg env (.adapterClaim a) = (env.1 + p.claimable, poolModify env.2 a (fun q => { q with claimable := 0 })) := by
          simp only [applyMsg]
          rw [hf]
        rw [heq]
        exact poolClaimableQ_modify_ne a b (fun q => { q with claimable := 0 }) (fun q => rfl) hba env.2
    have h2 := ih hnd.of_cons (applyMsg env (.adapterClaim a)) hq2
    unfold applyMsgs at *
    simp only [List.map_cons, List.foldl_cons, List.sum_cons]
    refine ⟨?_, by rw [h2.2.1, h1.2.1], by rw [h2.2.2, h1.2.2]⟩
    rw [h2.1, h1.1, hq a (List.mem_cons_self _ _)]
    omega

theorem applyMsgs_sends (sends : List (Addr × Nat)) :
    ∀ env : Nat × List AdapterSt,
      (∀ p ∈ sends, p.1 ∈ poolAddrs env.2) → sumSnd sends ≤ env.1 →
      (applyMsgs env (sends.map (fun p => Msg.send p.1 p.2))).1
          = env.1 - sumSnd sends ∧
      envTotal (applyMsgs env (sends.map (fun p => Msg.send p.1 p.2))) = envTotal env ∧
      poolAddrs (applyMsgs env (sends.map (fun p => Msg.send p.1 p.2))).2
          = poolAddrs env.2 := by
  induction sends with
  | nil => intro env _ _; exact ⟨by simp [applyMsgs, sumSnd], rfl, rfl⟩
  | cons p rest ih =>
    intro env hmem hle
    have hsum : sumSnd (p :: rest) = p.2 + sumSnd rest := by
      simp [sumSnd]
    have hx : p.2 ≤ env.1 := by omega
    have h1 := applyMsg_send_pool env p.1 p.2 (hmem p (List.mem_cons_self _ _)) hx
    have h2 := ih (applyMsg env (.send p.1 p.2))
      (fun q hq => h1.2.2 ▸ hmem q (List.mem_cons_of_mem _ hq))
      (by rw [h1.1]; omega)
    unfold applyMsgs at *
    simp only [List.map_cons, List.foldl_cons]
    refine ⟨?_, by rw [h2.2.1, h1.2.1], by rw [h2.2.2, h1.2.2]⟩
    rw [h2.1, h1.1, hsum]
    omega

theorem applyMsgs_sendFroms (o : Addr) (sf : List (Addr × Nat)) :
    ∀ env : Nat × List AdapterSt,
      (∀ p ∈ sf, p.1 ∈ poolAddrs env.2) →
      (applyMsgs env (sf.map (fun p => Msg.sendFrom o p.1 p.2))).1 = env.1 ∧
      envTotal (applyMsgs env (sf.map (fun p => Msg.sendFrom o p.1 p.2)))
          = envTotal env + sumSnd sf ∧
      poolAddrs (applyMsgs env (sf.map (fun p => Msg.sendFrom o p.1 p.2))).2
          = poolAddrs env.2 := by
  induction sf with
  | nil => intro env _; exact ⟨rfl, by simp [applyMsgs, sumSnd], rfl⟩
  | cons p rest ih =>
    intro env hmem
    have h1 := applyMsg_sendFrom_pool env o p.1 p.2 (hmem p (List.mem_cons_self _ _))
    have h2 := ih (applyMsg env (.sendFrom o p.1 p.2))
      (fun q hq => h1.2.2 ▸ hmem q (List.mem_cons_of_mem _ hq))
    unfold applyMsgs at *
    simp only [List.map_cons, List.foldl_cons]
    refine ⟨by rw [h2.1, h1.1], ?_, by rw [h2.2.2, h1.2.2]⟩
    rw [h2.2.1, h1.2.1]
    simp [sumSnd]
    omega

theorem applyMsgs_append (env : Nat × List AdapterSt) (ms1 ms2 : List Msg) :
    applyMsgs env (ms1 ++ ms2) = applyMsgs (applyMsgs env ms1) ms2 :=
  List.foldl_append _ _ _ _

theorem fundGap_totals (gap balance allowance : Nat) :
    (fundGap gap balance allowance).balance + (fundGap gap balance allowance).sends.sum = balance ∧
    (fundGap gap balance allowance).allowance + (fundGap gap balance allowance).sendFroms.sum = allowance ∧
    (fundGap gap balance allowance).allowanceUsed = (fundGap gap balance allowance).sendFroms.sum := by
  unfold fundGap
  split
  · split
    · simp
      omega
    · simp
      omega
  · split
    · simp
    · split
      · split
        · simp
          omega
        · simp
          omega
      · simp
        omega

theorem planStep_inv (total : Nat) (st : PlanSt) (a : AllocationMeta)
    (st2 : PlanSt) (brk : Bool) (h : planStep total st a = .ok (st2, brk)) :
    st2.balance + sumSnd st2.sends = st.balance + sumSnd st.sends ∧
    st2.allowance + sumSnd st2.sendFroms = st.allowance + sumSnd st.sendFroms ∧
    st2.allowanceUsed + sumSnd st.sendFroms = st.allowanceUsed + sumSnd st2.sendFroms ∧
    (∀ p ∈ st2.sends, p ∈ st.sends ∨ p.1 = a.contract) ∧
    (∀ p ∈ st2.sendFroms, p ∈ st.sendFroms ∨ p.1 = a.contract) ∧
    (∀ m ∈ st2.unbonds, m ∈ st.unbonds ∨ ∃ a2 x, m = Msg.adapterUnbond a2 x) := by
  cases hn : a.nick with
  | none => simp [planStep, bind, Except.bind, hn] at h
  | some nm =>
  unfold planStep at h
  rw [hn] at h
  simp only [Option.isNone_some, Bool.false_eq_true, if_false] at h
  set desired := (match a.allocType with
    | AllocationType.amount => a.amount
    | AllocationType.portion =>
      if total > st.amountSendingOut then
        a.amount * (total - st.amountSendingOut) / ONE_HUNDRED_PERCENT
      else 0) with hdes
  set aso := (match a.allocType with
    | AllocationType.amount => st.amountSendingOut + a.amount
    | AllocationType.portion => st.amountSendingOut) with haso
  by_cases hb : a.balance < desired
  · rw [if_pos hb] at h
    by_cases hth : desired - a.balance ≤ desired * a.tolerance / ONE_HUNDRED_PERCENT
    · rw [if_pos hth] at h
      simp [bind, Except.bind, pure, Except.pure] at h
      obtain ⟨h1, -⟩ := h
      subst h1
      simp
      exact ⟨fun a1 b hb => Or.inl hb, fun a1 b hb => Or.inl hb, fun m hm => Or.inl hm⟩
    · rw [if_neg hth] at h
      simp [bind, Except.bind, pure, Except.pure] at h
      obtain ⟨h1, -⟩ := h
      subst h1
      obtain ⟨f1, f2, f3⟩ := fundGap_totals (desired - a.balance) st.balance st.allowance
      have hsends : sumSnd (((fundGap (desired - a.balance) st.balance st.allowance).sends).map (fun x => (a.contract, x))) = ((fundGap (desired - a.balance) st.balance st.allowance).sends).sum := by
        simp [sumSnd]
      have hsf : sumSnd (((fundGap (desired - a.balance) st.balance st.allowance).sendFroms).map (fun x => (a.contract, x))) = ((fundGap (desired - a.balance) st.balance st.allowance).sendFroms).sum := by
        simp [sumSnd]
      refine ⟨?_, ?_, ?_, ?_, ?_, ?_⟩
      · simp only [sumSnd, List.map_append, List.sum_append] at *
        omega
      · simp only [sumSnd, List.map_append, List.sum_append] at *
        omega
      · simp only [sumSnd, List.map_append, List.sum_append] at *
        omega
      · intro p hp
        rcases List.mem_append.mp hp with h2 | h2
        · exact Or.inl h2
        · obtain ⟨x, _, rfl⟩ := List.mem_map.mp h2
          exact Or.inr rfl
      · intro p hp
        rcases List.mem_append.mp hp with h2 | h2
        · exact Or.inl h2
        · obtain ⟨x, _, rfl⟩ := List.mem_map.mp h2
          exact Or.inr rfl
      · exact fun m hm => Or.inl hm
  · rw [if_neg hb] at h
    by_cases hb2 : a.balance > desired
    · rw [if_pos hb2] at h
      by_cases hth : a.balance - desired ≤ desired * a.tolerance / ONE_HUNDRED_PERCENT
      · rw [if_pos hth] at h
        simp [bind, Except.bind, pure, Except.pure] at h
        obtain ⟨h1, -⟩ := h
        subst h1
        simp
        exact ⟨fun a1 b hb => Or.inl hb, fun a1 b hb => Or.inl hb, fun m hm => Or.inl hm⟩
      · rw [if_neg hth] at h
        simp [bind, Except.bind, pure, Except.pure] at h
        obtain ⟨h1, -⟩ := h
        subst h1
        refine ⟨by simp, by simp, by simp, fun p hp => Or.inl hp, fun p hp => Or.inl hp, ?_⟩
        intro m hm
        rcases List.mem_append.mp hm with h2 | h2
        · exact Or.inl h2
        · simp at h2
          exact Or.inr ⟨a.contract, a.balance - desired, h2⟩
    · rw [if_neg hb2] at h
      simp [bind, Except.bind, pure, Except.pure] at h
      obtain ⟨h1, -⟩ := h
      subst h1
      simp
      exact ⟨fun a1 b hb => Or.inl hb, fun a1 b hb => Or.inl hb, fun m hm => Or.inl hm⟩

theorem planLoop_inv (total : Nat) :
    ∀ (l : List AllocationMeta) (st plan : PlanSt),
    planLoop total st l = .ok plan →
    plan.balance + sumSnd plan.sends = st.balance + sumSnd st.sends ∧
    plan.allowance + sumSnd plan.sendFroms = st.allowance + sumSnd st.sendFroms ∧
    plan.allowanceUsed + sumSnd st.sendFroms = st.allowanceUsed + sumSnd plan.sendFroms ∧
    (∀ p ∈ plan.sends, p ∈ st.sends ∨ p.1 ∈ l.map (fun a => a.contract)) ∧
    (∀ p ∈ plan.sendFroms, p ∈ st.sendFroms ∨ p.1 ∈ l.map (fun a => a.contract)) ∧
    (∀ m ∈ plan.unbonds, m ∈ st.unbonds ∨ ∃ a2 x, m = Msg.adapterUnbond a2 x) := by
  intro l
  induction l with
  | nil =>
    intro st plan h
    simp [planLoop, pure, Except.pure] at h
    subst h
    exact ⟨rfl, rfl, rfl, fun p hp => Or.inl hp, fun p hp => Or.inl hp, fun m hm => Or.inl hm⟩
  | cons a rest ih =>
    intro st plan h
    unfold planLoop at h
    cases hstep : planStep total st a with
    | error e => rw [hstep] at h; simp [bind, Except.bind] at h
    | ok pr =>
      rw [hstep] at h
      obtain ⟨st2, brk⟩ := pr
      have hinv := planStep_inv total st a st2 brk hstep
      simp only [bind, Except.bind] at h
      cases brk with
      | true =>
        simp [pure, Except.pure] at h
        subst h
        obtain ⟨i1, i2, i3, i4, i5, i6⟩ := hinv
        exact ⟨i1, i2, i3,
          fun p hp => (i4 p hp).imp_right (fun he => by simp [he]),
          fun p hp => (i5 p hp).imp_right (fun he => by simp [he]), i6⟩
      | false =>
        simp at h
        obtain ⟨i1, i2, i3, i4, i5, i6⟩ := hinv
        obtain ⟨j1, j2, j3, j4, j5, j6⟩ := ih st2 plan h
        refine ⟨by omega, by omega, by omega, ?_, ?_, ?_⟩
        · intro p hp
          rcases j4 p hp with h2 | h2
          · exact (i4 p h2).imp_right (fun he => by simp [he])
          · exact Or.inr (by simp [h2])
        · intro p hp
          rcases j5 p hp with h2 | h2
          · exact (i5 p h2).imp_right (fun he => by simp [he])
          · exact Or.inr (by simp [h2])
        · intro m hm
          rcases j6 m hm with h2 | h2
          · exact i6 m h2
          · exact Or.inr h2

theorem filter_balance_sum (l : List AllocationMeta) :
    amountTotalOf l + portionTotalOf l = (l.map (fun a => a.balance)).sum := by
  induction l with
  | nil => simp [amountTotalOf, portionTotalOf]
  | cons a rest ih =>
    unfold amountTotalOf portionTotalOf at *
    cases ht : a.allocType <;> simp [ht] <;> omega

theorem refreshBals_balances (l : List AllocationMeta) (q : Addr → Nat) :
    (refreshBals l q).map (fun a => a.balance) = l.map (fun a => q a.contract) := by
  simp [refreshBals]

theorem poolBalQ_cons_ne (p : AdapterSt) (ps : List AdapterSt) (a : Addr)
    (h : p.addr ≠ a) : poolBalQ (p :: ps) a = poolBalQ ps a := by
  simp [poolBalQ, poolFind, h]

theorem poolAddrs_total (pool0 : List AdapterSt) :
    ∀ pool : List AdapterSt, (poolAddrs pool).Nodup →
      (∀ p ∈ pool, poolBalQ pool0 p.addr = p.staked + p.claimable) →
      ((poolAddrs pool).map (poolBalQ pool0)).sum = poolTotal pool := by
  intro pool
  induction pool with
  | nil => intro _ _; rfl
  | cons p ps ih =>
    intro hnd hq
    simp only [poolAddrs, List.map_cons, List.sum_cons, poolTotal] at *
    rw [hq p (List.mem_cons_self _ _)]
    have := ih hnd.of_cons (fun r hr => hq r (List.mem_cons_of_mem _ hr))
    simp only [poolAddrs, poolTotal] at this
    omega

theorem poolBalQ_self (pool : List AdapterSt) :
    (poolAddrs pool).Nodup → ∀ p ∈ pool, poolBalQ pool p.addr = p.staked + p.claimable := by
  induction pool with
  | nil => intro _ p hp; simp at hp
  | cons q ps ih =>
    intro hnd p hp
    simp only [poolAddrs, List.map_cons, List.nodup_cons] at hnd
    rcases List.mem_cons.mp hp with rfl | hp2
    · simp [poolBalQ, poolFind]
    · have hne : q.addr ≠ p.addr := by
        intro heq
        exact hnd.1 (heq ▸ List.mem_map.mpr ⟨p, hp2, rfl⟩)
      rw [poolBalQ_cons_ne q ps p.addr hne]
      exact ih hnd.2 p hp2

theorem entrySum_cons (f : Holding → List Balance) (holdings : List (Addr × Holding))
    (asset : Addr) (a : Addr) (hs : List Addr) :
    entrySum f holdings asset (a :: hs)
      = (getEntry? (f ((lookupKey holdings a).getD default)) asset).getD 0
        + entrySum f holdings asset hs := by
  simp [entrySum]

theorem holderSums_eval (holdings : List (Addr × Holding)) (asset : Addr) :
    ∀ (hs : List Addr) (u p : Nat), holderSums holdings asset hs = .ok (u, p) →
      u = entrySum (fun hd => hd.unbondings) holdings asset hs ∧
      p = entrySum (fun hd => hd.balances) holdings asset hs := by
  intro hs
  induction hs with
  | nil =>
    intro u p h
    simp only [holderSums] at h
    injection h with h2
    injection h2 with hu hp2
    simp [entrySum, ← hu, ← hp2]
  | cons a rest ih =>
    intro u p h
    unfold holderSums at h
    cases hl : lookupKey holdings a with
    | none => rw [hl] at h; simp [bind, Except.bind, pure, Except.pure] at h
    | some hd =>
      rw [hl] at h
      cases hrec : holderSums holdings asset rest with
      | error e => simp [bind, Except.bind, hrec, pure, Except.pure] at h
      | ok pr =>
        obtain ⟨u2, p2⟩ := pr
        simp [bind, Except.bind, hrec, pure, Except.pure] at h
        obtain ⟨h1, h2⟩ := ih u2 p2 hrec
        obtain ⟨hu, hp2⟩ := h
        rw [entrySum_cons, entrySum_cons, hl]
        simp only [Option.getD_some]
        omega

theorem sumUnbondingsExcept_isSome (holdings : List (Addr × Holding)) (asset excl : Addr) :
    ∀ (hs : List Addr) (v : Nat), sumUnbondingsExcept holdings asset excl hs = .ok v →
      ∀ h ∈ hs, h ≠ excl → (lookupKey holdings h).isSome := by
  intro hs
  induction hs with
  | nil => intro v _ h hh; simp at hh
  | cons a rest ih =>
    intro v hv h hh hne
    unfold sumUnbondingsExcept at hv
    cases hrec : sumUnbondingsExcept holdings asset excl rest with
    | error e => simp [bind, Except.bind, hrec] at hv
    | ok acc =>
      rw [hrec] at hv
      rcases List.mem_cons.mp hh with rfl | hh2
      · simp [bind, Except.bind, Ne.symm, (by simp [hne] : (h == excl) = false)] at hv
        cases hl : lookupKey holdings h with
        | none => rw [hl] at hv; simp at hv
        | some hd => simp [hl]
      · exact ih acc hrec h hh2 hne

theorem receive_ok_inv (s : State) (sender d : Addr) (amt : Nat) (s2 : State)
    (h : receive s sender d amt = .ok s2) :
    sender ∈ s.assetList ∧
    ∃ allocs, lookupKey s.allocations sender = some allocs ∧
      (((∃ al ∈ allocs, al.contract = d) ∧ s2 = s) ∨
       ((¬ ∃ al ∈ allocs, al.contract = d) ∧
         ∃ hd, lookupKey s.holdings (if d ∈ s.holders then d else s.treasury) = some hd ∧
           s2 = { s with holdings := setKey s.holdings (if d ∈ s.holders then d else s.treasury) { hd with balances := addEntry hd.balances sender amt } })) := by
  by_cases h1 : sender ∈ s.assetList
  · cases h2 : lookupKey s.allocations sender with
    | none => simp [receive, h1, h2, bind, Except.bind, pure, Except.pure] at h
    | some allocs =>
      refine ⟨h1, allocs, rfl, ?_⟩
      by_cases h3 : ∃ al ∈ allocs, al.contract = d
      · left
        refine ⟨h3, ?_⟩
        simp [receive, h1, h2, h3, bind, Except.bind, pure, Except.pure] at h
        exact h.symm
      · right
        refine ⟨h3, ?_⟩
        cases h4 : lookupKey s.holdings (if d ∈ s.holders then d else s.treasury) with
        | none =>
          by_cases h5 : d ∈ s.holders
          · rw [if_pos h5] at h4
            simp [receive, h1, h2, h3, h4, h5, bind, Except.bind, pure, Except.pure] at h
          · rw [if_neg h5] at h4
            simp [receive, h1, h2, h3, h4, h5, bind, Except.bind, pure, Except.pure] at h
        | some hd =>
          refine ⟨hd, rfl, ?_⟩
          by_cases h5 : d ∈ s.holders
          · rw [if_pos h5] at h4 ⊢
            simp [receive, h1, h2, h3, h4, h5, bind, Except.bind, pure, Except.pure] at h
            exact h.symm
          · rw [if_neg h5] at h4 ⊢
            simp [receive, h1, h2, h3, h4, h5, bind, Except.bind, pure, Except.pure] at h
            exact h.symm
  · simp [receive, h1, bind, Except.bind, pure, Except.pure, throw, throwThe, MonadExceptOf.throw] at h

theorem unbondMove_ok_inv (hd : Holding) (asset : Addr) (A : Nat) (hd2 : Holding)
    (h : unbondMove hd asset A = .ok hd2) :
    hd.status = .active ∧ ∃ b, getEntry? hd.balances asset = some b ∧ A ≤ b := by
  by_cases h1 : hd.status = .active
  · cases h2 : getEntry? hd.balances asset with
    | none => simp [unbondMove, h1, h2, bind, Except.bind, pure, Except.pure, throw, throwThe, MonadExceptOf.throw] at h
    | some b =>
      by_cases h3 : b < A
      · simp [unbondMove, h1, h2, h3, bind, Except.bind, pure, Except.pure, throw, throwThe, MonadExceptOf.throw] at h
      · exact ⟨h1, b, rfl, Nat.not_lt.mp h3⟩
  · simp [unbondMove, h1, bind, Except.bind, pure, Except.pure, throw, throwThe, MonadExceptOf.throw] at h

theorem unbond_ok_inv (s : State) (sender asset : Addr) (A liquid : Nat)
    (balQ unbQ : Addr → Nat) (out : UnbondOut)
    (h : unbond s sender false asset A liquid balQ unbQ = .ok out) :
    asset ∈ s.assetList ∧ sender ∈ s.holders ∧
    ∃ hd, lookupKey s.holdings sender = some hd ∧ hd.status = .active ∧
      (∃ b, getEntry? hd.balances asset = some b ∧ A ≤ b) ∧
      (∀ h2 ∈ s.holders, h2 ≠ sender → (lookupKey s.holdings h2).isSome) := by
  by_cases h1 : asset ∈ s.assetList
  · by_cases h2 : sender ∈ s.holders
    · cases h3 : lookupKey s.holdings sender with
      | none => simp [unbond, h1, h2, h3, bind, Except.bind, pure, Except.pure, throw, throwThe, MonadExceptOf.throw] at h
      | some hd =>
        cases h4 : unbondMove hd asset A with
        | error e => simp [unbond, h1, h2, h3, h4, bind, Except.bind, pure, Except.pure, throw, throwThe, MonadExceptOf.throw] at h
        | ok hd2 =>
          obtain ⟨hact, b, hb, hA⟩ := unbondMove_ok_inv hd asset A hd2 h4
          cases h5 : sumUnbondingsExcept (setKey s.holdings sender hd2) asset sender s.holders with
          | error e => simp [unbond, h1, h2, h3, h4, h5, bind, Except.bind, pure, Except.pure, throw, throwThe, MonadExceptOf.throw] at h
          | ok v =>
            refine ⟨h1, h2, hd, rfl, hact, ⟨b, hb, hA⟩, ?_⟩
            intro h6 hh6 hne
            have := sumUnbondingsExcept_isSome (setKey s.holdings sender hd2)
              asset sender s.holders v h5 h6 hh6 hne
            rwa [lookupKey_setKey_ne _ _ _ _ hne] at this
    · simp [unbond, h1, h2, bind, Except.bind, pure, Except.pure, throw, throwThe, MonadExceptOf.throw] at h
  · simp [unbond, h1, bind, Except.bind, pure, Except.pure, throw, throwThe, MonadExceptOf.throw] at h

theorem claimOp_ok_inv (s : State) (sender asset : Addr) (liquid : Nat)
    (q : Addr → Nat) (out : ClaimOut)
    (h : claimOp s sender false asset liquid q = .ok out) :
    asset ∈ s.assetList ∧ sender ∈ s.holders ∧
    ∃ hd, lookupKey s.holdings sender = some hd ∧
      ∃ p, getEntry? hd.unbondings asset = some p := by
  by_cases h1 : asset ∈ s.assetList
  · by_cases h2 : sender ∈ s.holders
    · cases h3 : lookupKey s.holdings sender with
      | none => simp [claimOp, h1, h2, h3, bind, Except.bind, pure, Except.pure, throw, throwThe, MonadExceptOf.throw] at h
      | some hd =>
        cases h4 : getEntry? hd.unbondings asset with
        | none => simp [claimOp, h1, h2, h3, h4, bind, Except.bind, pure, Except.pure, throw, throwThe, MonadExceptOf.throw] at h
        | some p => exact ⟨h1, h2, hd, rfl, p, h4⟩
    · simp [claimOp, h1, h2, bind, Except.bind, pure, Except.pure, throw, throwThe, MonadExceptOf.throw] at h
  · simp [claimOp, h1, bind, Except.bind, pure, Except.pure, throw, throwThe, MonadExceptOf.throw] at h

theorem unbond_admin (s : State) (x asset : Addr) (A liquid : Nat)
    (balQ unbQ : Addr → Nat) :
    unbond s x true asset A liquid balQ unbQ
      = unbond s s.treasury false asset A liquid balQ unbQ := rfl

theorem claimOp_admin (s : State) (x asset : Addr) (liquid : Nat) (q : Addr → Nat) :
    claimOp s x true asset liquid q = claimOp s s.treasury false asset liquid q := rfl

theorem StableTo_rfl (s : State) : StableTo s s := ⟨rfl, rfl, rfl, rfl⟩

theorem Wf_of_stable (asset : Addr) (sys : Sys) (hwf : Wf asset sys)
    (s2 : State) (l2 : Nat) (pool2 : List AdapterSt)
    (hst : StableTo sys.st s2) (hpa : poolAddrs pool2 = poolAddrs sys.pool) :
    Wf asset ⟨s2, l2, pool2⟩ := by
  obtain ⟨h1, h2, h3, h4⟩ := hst
  obtain ⟨al, hal, hmap⟩ := hwf.allocsPool
  refine ⟨?_, ?_, ?_, ⟨al, ?_, ?_⟩, ?_, ?_⟩
  · rw [h1, h2]
    exact hwf.treasuryHolder
  · rw [h2]
    exact hwf.holdersNodup
  · rw [h3]
    exact hwf.assetReg
  · rw [h4]
    exact hal
  · rw [hmap]
    exact hpa.symm
  · rw [hpa]
    exact hwf.poolNodup
  · intro h hh
    rw [hpa]
    exact hwf.holdersNotAdapters h (h2 ▸ hh)

theorem OpOK_congr (pool1 pool2 : List AdapterSt)
    (h : poolAddrs pool2 = poolAddrs pool1) (op : Op)
    (hop : OpOK pool1 op) : OpOK pool2 op := by
  cases op with
  | deposit d amt => simpa [OpOK, h] using hop
  | unbond s a x => trivial
  | claim s a => trivial

theorem runOp_deposit_inv (asset : Addr) (sys : Sys) (d : Addr) (amt : Nat)
    (hwf : Wf asset sys) (hop : d ∉ poolAddrs sys.pool) :
    conserved asset (runOp asset sys (.deposit d amt)) = conserved asset sys ∧
    StableTo sys.st (runOp asset sys (.deposit d amt)).st ∧
    poolAddrs (runOp asset sys (.deposit d amt)).pool = poolAddrs sys.pool := by
  cases hr : receive sys.st asset d amt with
  | error e =>
    have heq : runOp asset sys (.deposit d amt) = sys := by
      simp only [runOp]
      rw [hr]
    rw [heq]
    exact ⟨rfl, StableTo_rfl _, rfl⟩
  | ok st2 =>
    have heq : runOp asset sys (.deposit d amt) = ⟨st2, sys.liquid + amt, sys.pool⟩ := by
      simp only [runOp]
      rw [hr]
    obtain ⟨hreg, allocs, hal, hcases⟩ := receive_ok_inv sys.st asset d amt st2 hr
    obtain ⟨al0, hal0, hmap⟩ := hwf.allocsPool
    have hae : allocs = al0 := by
      rw [hal] at hal0
      exact Option.some.inj hal0
    subst hae
    rcases hcases with ⟨⟨a2, ha2m, ha2c⟩, _⟩ | ⟨hnc, hd0, hhd0, hst2⟩
    · exact absurd (hmap ▸ List.mem_map.mpr ⟨a2, ha2m, ha2c⟩) hop
    · set k := if d ∈ sys.st.holders then d else sys.st.treasury with hk
      have hmemk : k ∈ sys.st.holders := by
        by_cases hdh : d ∈ sys.st.holders
        · rw [hk, if_pos hdh]
          exact hdh
        · rw [hk, if_neg hdh]
          exact hwf.treasuryHolder
      have hcong : ∀ h, h ≠ k → lookupKey st2.holdings h = lookupKey sys.st.holdings h := by
        intro h hne
        rw [hst2]
        exact lookupKey_setKey_ne _ _ _ _ hne
      have hl2 : lookupKey st2.holdings k
          = some { hd0 with balances := addEntry hd0.balances asset amt } := by
        rw [hst2]
        exact lookupKey_setKey_self _ _ _
      have hAv := entrySum_delta (fun hd => hd.balances) sys.st.holdings st2.holdings
        asset k sys.st.holders hwf.holdersNodup hmemk (fun h hh hne => hcong h hne)
      have hUn := entrySum_delta (fun hd => hd.unbondings) sys.st.holdings st2.holdings
        asset k sys.st.holders hwf.holdersNodup hmemk (fun h hh hne => hcong h hne)
      rw [hhd0, hl2] at hAv hUn
      simp only [Option.getD_some, getEntry?_addEntry_self] at hAv hUn
      have hholders : st2.holders = sys.st.holders := by rw [hst2]
      have htre : st2.treasury = sys.st.treasury := by rw [hst2]
      have hass : st2.assetList = sys.st.assetList := by rw [hst2]
      have hallo : st2.allocations = sys.st.allocations := by rw [hst2]
      rw [heq]
      refine ⟨?_, ⟨htre, hholders, hass, hallo⟩, rfl⟩
      show ((sumAvail st2 asset + sumUnb st2 asset : Nat) : ℤ)
          - ((sys.liquid + amt + poolTotal sys.pool : Nat) : ℤ) = conserved asset sys
      unfold conserved sumAvail sumUnb
      rw [hholders]
      omega

theorem runOp_unbond_inv (asset : Addr) (sys : Sys) (sender : Addr)
    (isAdmin : Bool) (amt : Nat) (hwf : Wf asset sys) :
    conserved asset (runOp asset sys (.unbond sender isAdmin amt)) = conserved asset sys ∧
    StableTo sys.st (runOp asset sys (.unbond sender isAdmin amt)).st ∧
    poolAddrs (runOp asset sys (.unbond sender isAdmin amt)).pool = poolAddrs sys.pool := by
  set u := if isAdmin then sys.st.treasury else sender with hu
  have hadm : unbond sys.st sender isAdmin asset amt sys.liquid
        (poolBalQ sys.pool) (poolUnbondableQ sys.pool)
      = unbond sys.st u false asset amt sys.liquid
        (poolBalQ sys.pool) (poolUnbondableQ sys.pool) := by
    cases isAdmin with
    | true =>
      simp only [hu, if_pos]
      exact unbond_admin sys.st sender asset amt sys.liquid _ _
    | false => simp [hu]
  cases hr : unbond sys.st u false asset amt sys.liquid
      (poolBalQ sys.pool) (poolUnbondableQ sys.pool) with
  | error e =>
    have heq : runOp asset sys (.unbond sender isAdmin amt) = sys := by
      simp only [runOp]
      rw [hadm, hr]
    rw [heq]
    exact ⟨rfl, StableTo_rfl _, rfl⟩
  | ok out =>
    obtain ⟨hreg, hmem, hd, hhd, hact, ⟨b, hb, hA⟩, hall⟩ :=
      unbond_ok_inv sys.st u asset amt sys.liquid _ _ out hr
    obtain ⟨al0, hal0, hmap⟩ := hwf.allocsPool
    obtain ⟨out2, hok2, hbal, hunb, hoth, hsendall, hsendpos, hhold, htre, hass, hallo,
        ams, hamsd, hamsall⟩ :=
      unbond_ok_spec sys.st u asset amt sys.liquid (poolBalQ sys.pool)
        (poolUnbondableQ sys.pool) hd b al0 hreg hmem hhd hact hb hA hall hal0
    rw [hr] at hok2
    have hoe : out = out2 := Except.ok.inj hok2
    subst hoe
    have heq : runOp asset sys (.unbond sender isAdmin amt)
        = ⟨out.state, (applyMsgs (sys.liquid, sys.pool) out.messages).1,
            (applyMsgs (sys.liquid, sys.pool) out.messages).2⟩ := by
      simp only [runOp]
      rw [hadm, hr]
    set R := min (sys.liquid - othersPending sys.st u asset) amt with hR
    have hRamt : R ≤ amt := Nat.min_le_right _ _
    have hRliq : R ≤ sys.liquid :=
      le_trans (Nat.min_le_left _ _) (Nat.sub_le _ _)
    have hAv := entrySum_delta (fun hd => hd.balances) sys.st.holdings out.state.holdings
      asset u sys.st.holders hwf.holdersNodup hmem (fun h hh hne => hoth h hne)
    have hUn := entrySum_delta (fun hd => hd.unbondings) sys.st.holdings out.state.holdings
      asset u sys.st.holders hwf.holdersNodup hmem (fun h hh hne => hoth h hne)
    have hnewb := holderBalAmt_getD out.state u asset (b - amt) hbal
    have hnewu := holderUnbAmt_getD out.state u asset
      ((getEntry? hd.unbondings asset).getD 0 + amt - R) hunb
    rw [hhd] at hAv hUn
    simp only [Option.getD_some] at hAv hUn
    rw [hb] at hAv
    simp only [Option.getD_some] at hAv
    rw [hnewb] at hAv
    rw [hnewu] at hUn
    have hunotpool : u ∉ poolAddrs sys.pool := hwf.holdersNotAdapters u hmem
    have henv : (applyMsgs (sys.liquid, sys.pool) out.messages).1
          + poolTotal (applyMsgs (sys.liquid, sys.pool) out.messages).2
        = (sys.liquid - R) + poolTotal sys.pool ∧
        poolAddrs (applyMsgs (sys.liquid, sys.pool) out.messages).2
        = poolAddrs sys.pool := by
      rcases hamsd with hms | hms
      · have hR0 : R = 0 := by
          by_contra hR0
          have hsend := hsendpos (Nat.pos_of_ne_zero hR0)
          rw [hms] at hsend
          obtain ⟨a2, x2, hax⟩ := hamsall _ hsend
          simp at hax
        rw [hms]
        have h2 := applyMsgs_adapterUnbonds ams hamsall (sys.liquid, sys.pool)
        have h2t := h2.2.1
        unfold envTotal at h2t
        simp only at h2t
        rw [hR0]
        exact ⟨by simpa using h2t, h2.2.2⟩
      · rw [hms]
        have hcons : applyMsgs (sys.liquid, sys.pool) (Msg.send u R :: ams)
            = applyMsgs (applyMsg (sys.liquid, sys.pool) (.send u R)) ams := by
          simp [applyMsgs]
        have hso := applyMsg_send_out (sys.liquid, sys.pool) u R hunotpool
        rw [hcons, hso]
        have h2 := applyMsgs_adapterUnbonds ams hamsall (sys.liquid - R, sys.pool)
        have h2t := h2.2.1
        unfold envTotal at h2t
        simp only at h2t
        exact ⟨by simpa using h2t, h2.2.2⟩
    rw [heq]
    refine ⟨?_, ⟨htre, hhold, hass, hallo⟩, henv.2⟩
    show ((sumAvail out.state asset + sumUnb out.state asset : Nat) : ℤ)
        - (((applyMsgs (sys.liquid, sys.pool) out.messages).1
            + poolTotal (applyMsgs (sys.liquid, sys.pool) out.messages).2 : Nat) : ℤ)
        = conserved asset sys
    unfold conserved sumAvail sumUnb
    rw [hhold]
    omega

theorem runOp_claim_inv (asset : Addr) (sys : Sys) (sender : Addr)
    (isAdmin : Bool) (hwf : Wf asset sys) :
    conserved asset (runOp asset sys (.claim sender isAdmin)) = conserved asset sys ∧
    StableTo sys.st (runOp asset sys (.claim sender isAdmin)).st ∧
    poolAddrs (runOp asset sys (.claim sender isAdmin)).pool = poolAddrs sys.pool := by
  set u := if isAdmin then sys.st.treasury else sender with hu
  have hadm : claimOp sys.st sender isAdmin asset sys.liquid (poolClaimableQ sys.pool)
      = claimOp sys.st u false asset sys.liquid (poolClaimableQ sys.pool) := by
    cases isAdmin with
    | true =>
      simp only [hu, if_pos]
      exact claimOp_admin sys.st sender asset sys.liquid _
    | false => simp [hu]
  cases hr : claimOp sys.st u false asset sys.liquid (poolClaimableQ sys.pool) with
  | error e =>
    have heq : runOp asset sys (.claim sender isAdmin) = sys := by
      simp only [runOp]
      rw [hadm, hr]
    rw [heq]
    exact ⟨rfl, StableTo_rfl _, rfl⟩
  | ok out =>
    obtain ⟨hreg, hmem, hd, hhd, p, hp⟩ :=
      claimOp_ok_inv sys.st u asset sys.liquid _ out hr
    obtain ⟨al0, hal0, hmap⟩ := hwf.allocsPool
    obtain ⟨out2, hok2, hsent, hunb, hoth, hhold, htre, hass, hallo,
        ⟨hd2, hl2, hbal2, hup2⟩, as, hmsg, htc, hsub⟩ :=
      claimOp_ok_spec sys.st u asset sys.liquid (poolClaimableQ sys.pool)
        hd p al0 hreg hmem hhd hp hal0
    rw [hr] at hok2
    have hoe : out = out2 := Except.ok.inj hok2
    subst hoe
    have heq : runOp asset sys (.claim sender isAdmin)
        = ⟨out.state, (applyMsgs (sys.liquid, sys.pool) out.messages).1,
            (applyMsgs (sys.liquid, sys.pool) out.messages).2⟩ := by
      simp only [runOp]
      rw [hadm, hr]
    have hsentle : out.sent ≤ sys.liquid + out.totalClaimed := by
      rw [hsent]
      exact Nat.min_le_right _ _
    have hsentp : out.sent ≤ p := by
      rw [hsent]
      exact Nat.min_le_left _ _
    have hAv := entrySum_delta (fun hd => hd.balances) sys.st.holdings out.state.holdings
      asset u sys.st.holders hwf.holdersNodup hmem (fun h hh hne => hoth h hne)
    have hUn := entrySum_delta (fun hd => hd.unbondings) sys.st.holdings out.state.holdings
      asset u sys.st.holders hwf.holdersNodup hmem (fun h hh hne => hoth h hne)
    have hnewu := holderUnbAmt_getD out.state u asset (p - out.sent) hunb
    rw [hhd] at hAv hUn
    rw [hl2] at hAv
    simp only [Option.getD_some] at hAv hUn
    rw [hbal2] at hAv
    rw [hnewu, hp] at hUn
    simp only [Option.getD_some] at hUn
    have hunotpool : u ∉ poolAddrs sys.pool := hwf.holdersNotAdapters u hmem
    have hndas : as.Nodup := by
      have hsub2 : as.Sublist (poolAddrs sys.pool) := hmap ▸ hsub
      exact List.Nodup.sublist hsub2 hwf.poolNodup
    have hcl := applyMsgs_claims sys.pool as hndas (sys.liquid, sys.pool)
      (fun b hb => rfl)
    have henv : (applyMsgs (sys.liquid, sys.pool) out.messages).1
          + poolTotal (applyMsgs (sys.liquid, sys.pool) out.messages).2
          + out.sent
        = sys.liquid + poolTotal sys.pool ∧
        poolAddrs (applyMsgs (sys.liquid, sys.pool) out.messages).2
        = poolAddrs sys.pool := by
      rw [hmsg, applyMsgs_append]
      set env1 := applyMsgs (sys.liquid, sys.pool) (as.map Msg.adapterClaim) with henv1
      have h11 : env1.1 = sys.liquid + out.totalClaimed := by
        rw [henv1, hcl.1, htc]
      have h1t := hcl.2.1
      unfold envTotal at h1t
      simp only at h1t
      have h1a : poolAddrs env1.2 = poolAddrs sys.pool := hcl.2.2
      have hnp2 : u ∉ poolAddrs env1.2 := by
        rw [h1a]
        exact hunotpool
      have hsend : applyMsgs env1 [Msg.send u out.sent]
          = applyMsg env1 (.send u out.sent) := by
        simp [applyMsgs]
      rw [hsend, applyMsg_send_out env1 u out.sent hnp2]
      simp only
      constructor
      · omega
      · exact h1a
    rw [heq]
    refine ⟨?_, ⟨htre, hhold, hass, hallo⟩, henv.2⟩
    show ((sumAvail out.state asset + sumUnb out.state asset : Nat) : ℤ)
        - (((applyMsgs (sys.liquid, sys.pool) out.messages).1
            + poolTotal (applyMsgs (sys.liquid, sys.pool) out.messages).2 : Nat) : ℤ)
        = conserved asset sys
    unfold conserved sumAvail sumUnb
    rw [hhold]
    omega

theorem runOp_inv (asset : Addr) (sys : Sys) (op : Op) (hwf : Wf asset sys)
    (hop : OpOK sys.pool op) :
    conserved asset (runOp asset sys op) = conserved asset sys ∧
    StableTo sys.st (runOp asset sys op).st ∧
    poolAddrs (runOp asset sys op).pool = poolAddrs sys.pool := by
  cases op with
  | deposit d amt => exact runOp_deposit_inv asset sys d amt hwf hop
  | unbond sender isAdmin amt => exact runOp_unbond_inv asset sys sender isAdmin amt hwf
  | claim sender isAdmin => exact runOp_claim_inv asset sys sender isAdmin hwf

theorem runOps_inv (asset : Addr) :
    ∀ (ops : List Op) (sys : Sys), Wf asset sys →
    (∀ op ∈ ops, OpOK sys.pool op) →
    conserved asset (runOps asset sys ops) = conserved asset sys ∧
    Wf asset (runOps asset sys ops) ∧
    poolAddrs (runOps asset sys ops).pool = poolAddrs sys.pool := by
  intro ops
  induction ops with
  | nil =>
    intro sys hwf _
    exact ⟨rfl, hwf, rfl⟩
  | cons op rest ih =>
    intro sys hwf hops
    have h1 := runOp_inv asset sys op hwf (hops op (List.mem_cons_self _ _))
    have hwf2 : Wf asset (runOp asset sys op) :=
      Wf_of_stable asset sys hwf (runOp asset sys op).st (runOp asset sys op).liquid
        (runOp asset sys op).pool h1.2.1 h1.2.2
    have hops2 : ∀ op2 ∈ rest, OpOK (runOp asset sys op).pool op2 :=
      fun op2 h2 => OpOK_congr sys.pool _ h1.2.2 op2 (hops op2 (List.mem_cons_of_mem _ h2))
    have hfold : runOps asset sys (op :: rest) = runOps asset (runOp asset sys op) rest := by
      simp [runOps]
    obtain ⟨i1, i2, i3⟩ := ih (runOp asset sys op) hwf2 hops2
    rw [hfold]
    exact ⟨by rw [i1, h1.1], i2, by rw [i3, h1.2.2]⟩

theorem update_ok_inv (s : State) (asset : Addr) (liquid allowance : Nat)
    (q : Addr → Nat) (out : UpdateOut)
    (h : update s asset liquid allowance q = .ok out) :
    ∃ al hU hP outT plan tHold s3,
      lookupKey s.allocations asset = some al ∧
      al.isEmpty = false ∧
      holderSums s.holdings asset s.holders = .ok (hU, hP) ∧
      checkedSub (amountTotalOf (refreshBals al q) + portionTotalOf (refreshBals al q) + liquid) hU = .ok outT ∧
      planLoop (outT + allowance) ⟨liquid, allowance, 0, [], [], [], 0, 0⟩ (typeSorted (refreshBals al q)) = .ok plan ∧
      lookupKey s.holdings s.treasury = some tHold ∧
      driftAdjust { s with holdings := setKey s.holdings s.treasury { tHold with balances := addEntry tHold.balances asset plan.allowanceUsed } } asset outT (hP + plan.allowanceUsed) = .ok s3 ∧
      out = ⟨s3, plan.sends, plan.sendFroms, plan.unbonds, plan.allowanceUsed, plan.balanceUsed⟩ := by
  by_cases h1 : asset ∈ s.assetList
  · cases h2 : lookupKey s.allocations asset with
    | none => simp [update, h1, h2, bind, Except.bind, pure, Except.pure, throw, throwThe, MonadExceptOf.throw] at h
    | some al =>
      cases h3 : al.isEmpty with
      | true => simp [update, h1, h2, h3, bind, Except.bind, pure, Except.pure, throw, throwThe, MonadExceptOf.throw] at h
      | false =>
        cases h4 : holderSums s.holdings asset s.holders with
        | error e => simp [update, h1, h2, h3, h4, bind, Except.bind, pure, Except.pure, throw, throwThe, MonadExceptOf.throw] at h
        | ok pr =>
          obtain ⟨hU, hP⟩ := pr
          cases h5 : checkedSub (amountTotalOf (refreshBals al q) + portionTotalOf (refreshBals al q) + liquid) hU with
          | error e => simp [update, h1, h2, h3, h4, h5, bind, Except.bind, pure, Except.pure, throw, throwThe, MonadExceptOf.throw] at h
          | ok outT =>
            cases h6 : planLoop (outT + allowance) ⟨liquid, allowance, 0, [], [], [], 0, 0⟩ (typeSorted (refreshBals al q)) with
            | error e => simp [update, h1, h2, h3, h4, h5, h6, bind, Except.bind, pure, Except.pure, throw, throwThe, MonadExceptOf.throw] at h
            | ok plan =>
              cases h7 : lookupKey s.holdings s.treasury with
              | none => simp [update, h1, h2, h3, h4, h5, h6, h7, bind, Except.bind, pure, Except.pure, throw, throwThe, MonadExceptOf.throw] at h
              | some tHold =>
                cases h8 : driftAdjust { s with holdings := setKey s.holdings s.treasury { tHold with balances := addEntry tHold.balances asset plan.allowanceUsed } } asset outT (hP + plan.allowanceUsed) with
                | error e => simp [update, h1, h2, h3, h4, h5, h6, h7, h8, bind, Except.bind, pure, Except.pure, throw, throwThe, MonadExceptOf.throw] at h
                | ok s3 =>
                  simp [update, h1, h2, h3, h4, h5, h6, h7, h8, bind, Except.bind, pure, Except.pure] at h
                  exact ⟨al, hU, hP, outT, plan, tHold, s3, rfl, h3, rfl, h5, h6, rfl, h8, h.symm⟩
  · simp [update, h1, bind, Except.bind, pure, Except.pure, throw, throwThe, MonadExceptOf.throw] at h

theorem typeSorted_contracts (l : List AllocationMeta) (c : Addr)
    (h : c ∈ (typeSorted l).map (fun a => a.contract)) :
    c ∈ l.map (fun a => a.contract) := by
  unfold typeSorted at h
  split at h
  · unfold sortByType at h
    rcases List.mem_map.mp h with ⟨a, ha, rfl⟩
    rcases List.mem_append.mp ha with h2 | h2
    · exact List.mem_map.mpr ⟨a, (List.mem_filter.mp h2).1, rfl⟩
    · exact List.mem_map.mpr ⟨a, (List.mem_filter.mp h2).1, rfl⟩
  · exact h

theorem refreshBals_contracts (l : List AllocationMeta) (q : Addr → Nat) (c : Addr)
    (h : c ∈ (refreshBals l q).map (fun a => a.contract)) :
    c ∈ l.map (fun a => a.contract) := by
  unfold refreshBals at h
  rw [List.map_map] at h
  simpa [Function.comp] using h

theorem runUpdate_inv (asset : Addr) (sys : Sys) (allowance : Nat) (out : UpdateOut)
    (hwf : Wf asset sys)
    (hupd : update sys.st asset sys.liquid allowance (poolBalQ sys.pool) = .ok out) :
    conserved asset (runUpdate asset sys allowance) = -(out.allowanceUsed : ℤ) ∧
    (treasAvail (runUpdate asset sys allowance).st asset : ℤ)
      = (treasAvail sys.st asset : ℤ) - conserved asset sys := by
  obtain ⟨al, hU, hP, outT, plan, tHold, s3, hal, hne, hsums, hsub, hplan, hthold, hdr, hout⟩ :=
    update_ok_inv sys.st asset sys.liquid allowance (poolBalQ sys.pool) out hupd
  subst hout
  obtain ⟨al0, hal0, hmap⟩ := hwf.allocsPool
  have hae : al = al0 := by
    rw [hal] at hal0
    exact Option.some.inj hal0
  subst hae
  have hbal : amountTotalOf (refreshBals al (poolBalQ sys.pool))
      + portionTotalOf (refreshBals al (poolBalQ sys.pool)) = poolTotal sys.pool := by
    rw [filter_balance_sum, refreshBals_balances]
    have hmm : al.map (fun a => poolBalQ sys.pool a.contract)
        = (al.map (fun a => a.contract)).map (poolBalQ sys.pool) := by
      rw [List.map_map]
      rfl
    rw [hmm, hmap]
    exact poolAddrs_total sys.pool sys.pool hwf.poolNodup (poolBalQ_self sys.pool hwf.poolNodup)
  have hck : hU ≤ poolTotal sys.pool + sys.liquid
      ∧ poolTotal sys.pool + sys.liquid - hU = outT := by
    rw [hbal] at hsub
    unfold checkedSub at hsub
    by_cases hle : hU ≤ poolTotal sys.pool + sys.liquid
    · simp [hle] at hsub
      exact ⟨hle, hsub⟩
    · simp [hle] at hsub
  obtain ⟨hUe, hPe⟩ := holderSums_eval sys.st.holdings asset sys.st.holders hU hP hsums
  obtain ⟨p1, p2, p3, p4, p5, p6⟩ :=
    planLoop_inv (outT + allowance) (typeSorted (refreshBals al (poolBalQ sys.pool)))
      ⟨sys.liquid, allowance, 0, [], [], [], 0, 0⟩ plan hplan
  simp only [sumSnd, List.map_nil, List.sum_nil] at p1 p2 p3
  have p1f : plan.balance + sumSnd plan.sends = sys.liquid := by
    unfold sumSnd
    omega
  have p3f : plan.allowanceUsed = sumSnd plan.sendFroms := by
    unfold sumSnd
    omega
  have hsendsPool : ∀ pr ∈ plan.sends, pr.1 ∈ poolAddrs sys.pool := by
    intro pr hpr
    rcases p4 pr hpr with h0 | h0
    · simp at h0
    · rw [← hmap]
      exact refreshBals_contracts al _ _ (typeSorted_contracts _ _ h0)
  have hsfPool : ∀ pr ∈ plan.sendFroms, pr.1 ∈ poolAddrs sys.pool := by
    intro pr hpr
    rcases p5 pr hpr with h0 | h0
    · simp at h0
    · rw [← hmap]
      exact refreshBals_contracts al _ _ (typeSorted_contracts _ _ h0)
  have hub : ∀ m ∈ plan.unbonds, ∃ a x, m = Msg.adapterUnbond a x := by
    intro m hm
    rcases p6 m hm with h0 | h0
    · simp at h0
    · exact h0
  have hentry2 : getEntry? (addEntry tHold.balances asset plan.allowanceUsed) asset
      = some ((getEntry? tHold.balances asset).getD 0 + plan.allowanceUsed) :=
    getEntry?_addEntry_self _ _ _
  have hth2 : lookupKey (setKey sys.st.holdings sys.st.treasury { tHold with balances := addEntry tHold.balances asset plan.allowanceUsed }) sys.st.treasury
      = some { tHold with balances := addEntry tHold.balances asset plan.allowanceUsed } :=
    lookupKey_setKey_self _ _ _
  have hdrift := driftAdjust_spec
    { sys.st with holdings := setKey sys.st.holdings sys.st.treasury { tHold with balances := addEntry tHold.balances asset plan.allowanceUsed } }
    asset outT (hP + plan.allowanceUsed)
    { tHold with balances := addEntry tHold.balances asset plan.allowanceUsed }
    ((getEntry? tHold.balances asset).getD 0 + plan.allowanceUsed) hth2 hentry2
  have hPle : hP ≤ (getEntry? tHold.balances asset).getD 0 + outT := by
    by_contra hcon
    have herr := hdrift.2 (by omega)
    rw [hdr] at herr
    simp at herr
  obtain ⟨s2, hs2ok, hbal2, hoth2, htre2, hhold2, tH2, htH2l, htH2e, htH2u⟩ :=
    hdrift.1 (by omega)
  rw [hdr] at hs2ok
  have hse : s3 = s2 := Except.ok.inj hs2ok
  subst hse
  have htre3 : s3.treasury = sys.st.treasury := htre2
  have hhold3 : s3.holders = sys.st.holders := hhold2
  have hoth3 : ∀ h, h ≠ sys.st.treasury →
      lookupKey s3.holdings h = lookupKey sys.st.holdings h := by
    intro h hne
    rw [hoth2 h hne]
    exact lookupKey_setKey_ne _ _ _ _ hne
  have hAv := entrySum_delta (fun hd => hd.balances) sys.st.holdings s3.holdings
    asset sys.st.treasury sys.st.holders hwf.holdersNodup hwf.treasuryHolder
    (fun h hh hne => hoth3 h hne)
  have hUn := entrySum_delta (fun hd => hd.unbondings) sys.st.holdings s3.holdings
    asset sys.st.treasury sys.st.holders hwf.holdersNodup hwf.treasuryHolder
    (fun h hh hne => hoth3 h hne)
  have htH2l2 : lookupKey s3.holdings sys.st.treasury = some tH2 := htH2l
  have htH2u2 : tH2.unbondings = tHold.unbondings := htH2u
  rw [hthold, htH2l2] at hAv hUn
  simp only [Option.getD_some] at hAv hUn
  rw [htH2e] at hAv
  simp only [Option.getD_some] at hAv
  rw [htH2u2] at hUn
  have heq : runUpdate asset sys allowance
      = ⟨s3, (applyMsgs (sys.liquid, sys.pool)
            (plan.unbonds ++ plan.sends.map (fun p => Msg.send p.1 p.2)
              ++ plan.sendFroms.map (fun p => Msg.sendFrom sys.st.treasury p.1 p.2))).1,
          (applyMsgs (sys.liquid, sys.pool)
            (plan.unbonds ++ plan.sends.map (fun p => Msg.send p.1 p.2)
              ++ plan.sendFroms.map (fun p => Msg.sendFrom sys.st.treasury p.1 p.2))).2⟩ := by
    simp only [runUpdate]
    rw [hupd]
  have h1e := applyMsgs_adapterUnbonds plan.unbonds hub (sys.liquid, sys.pool)
  have h1t : (applyMsgs (sys.liquid, sys.pool) plan.unbonds).1
      + poolTotal (applyMsgs (sys.liquid, sys.pool) plan.unbonds).2
      = sys.liquid + poolTotal sys.pool := by
    have h0 := h1e.2.1
    unfold envTotal at h0
    simpa using h0
  have h2e := applyMsgs_sends plan.sends (applyMsgs (sys.liquid, sys.pool) plan.unbonds)
    (fun pr hpr => h1e.2.2 ▸ hsendsPool pr hpr)
    (by rw [h1e.1]; show sumSnd plan.sends ≤ sys.liquid; unfold sumSnd; omega)
  have h2t : (applyMsgs (applyMsgs (sys.liquid, sys.pool) plan.unbonds)
        (plan.sends.map (fun p => Msg.send p.1 p.2))).1
      + poolTotal (applyMsgs (applyMsgs (sys.liquid, sys.pool) plan.unbonds)
        (plan.sends.map (fun p => Msg.send p.1 p.2))).2
      = (applyMsgs (sys.liquid, sys.pool) plan.unbonds).1
        + poolTotal (applyMsgs (sys.liquid, sys.pool) plan.unbonds).2 := by
    have h0 := h2e.2.1
    unfold envTotal at h0
    simpa using h0
  have h3e := applyMsgs_sendFroms sys.st.treasury plan.sendFroms
    (applyMsgs (applyMsgs (sys.liquid, sys.pool) plan.unbonds)
      (plan.sends.map (fun p => Msg.send p.1 p.2)))
    (fun pr hpr => h2e.2.2 ▸ h1e.2.2 ▸ hsfPool pr hpr)
  have h3t : (applyMsgs (applyMsgs (applyMsgs (sys.liquid, sys.pool) plan.unbonds)
        (plan.sends.map (fun p => Msg.send p.1 p.2)))
        (plan.sendFroms.map (fun p => Msg.sendFrom sys.st.treasury p.1 p.2))).1
      + poolTotal (applyMsgs (applyMsgs (applyMsgs (sys.liquid, sys.pool) plan.unbonds)
        (plan.sends.map (fun p => Msg.send p.1 p.2)))
        (plan.sendFroms.map (fun p => Msg.sendFrom sys.st.treasury p.1 p.2))).2
      = (applyMsgs (applyMsgs (sys.liquid, sys.pool) plan.unbonds)
          (plan.sends.map (fun p => Msg.send p.1 p.2))).1
        + poolTotal (applyMsgs (applyMsgs (sys.liquid, sys.pool) plan.unbonds)
          (plan.sends.map (fun p => Msg.send p.1 p.2))).2
        + sumSnd plan.sendFroms := by
    have h0 := h3e.2.1
    unfold envTotal at h0
    simpa using h0
  have happ : applyMsgs (sys.liquid, sys.pool)
        (plan.unbonds ++ plan.sends.map (fun p => Msg.send p.1 p.2)
          ++ plan.sendFroms.map (fun p => Msg.sendFrom sys.st.treasury p.1 p.2))
      = applyMsgs (applyMsgs (applyMsgs (sys.liquid, sys.pool) plan.unbonds)
          (plan.sends.map (fun p => Msg.send p.1 p.2)))
          (plan.sendFroms.map (fun p => Msg.sendFrom sys.st.treasury p.1 p.2)) := by
    rw [applyMsgs_append, applyMsgs_append]
  have htA3 : treasAvail s3 asset
      = (getEntry? tHold.balances asset).getD 0 + plan.allowanceUsed + outT
        - (hP + plan.allowanceUsed) := by
    unfold treasAvail holderBalAmt
    rw [htre3, htH2l2]
    simp [htH2e]
  have htA0 : treasAvail sys.st asset = (getEntry? tHold.balances asset).getD 0 := by
    simp [treasAvail, holderBalAmt, hthold]
  constructor
  · have hc1 : conserved asset (runUpdate asset sys allowance)
        = ((sumAvail s3 asset + sumUnb s3 asset : Nat) : ℤ)
          - (((applyMsgs (sys.liquid, sys.pool)
                (plan.unbonds ++ plan.sends.map (fun p => Msg.send p.1 p.2)
                  ++ plan.sendFroms.map (fun p => Msg.sendFrom sys.st.treasury p.1 p.2))).1
              + poolTotal (applyMsgs (sys.liquid, sys.pool)
                (plan.unbonds ++ plan.sends.map (fun p => Msg.send p.1 p.2)
                  ++ plan.sendFroms.map (fun p => Msg.sendFrom sys.st.treasury p.1 p.2))).2
              : Nat) : ℤ) := by
      rw [heq]
      rfl
    rw [hc1, happ]
    show _ = -((plan.allowanceUsed : Nat) : ℤ)
    unfold sumAvail sumUnb
    rw [hhold3]
    omega
  · have hc2 : treasAvail (runUpdate asset sys allowance).st asset = treasAvail s3 asset := by
      rw [heq]
    rw [hc2, htA3, htA0]
    unfold conserved sumAvail sumUnb
    omega

/-- C1 amended: on the closed single-asset system the claimed quantity must
drop the allocation balances and liquid balance from the sum and instead
compare holder claims against held assets: for every sequence of
deposit/unbond/claim operations (deposits not coming from an adapter
address), the balance conserved = (sum of available balances + sum of
pending unbondings) minus (liquid balance + allocation/adapter funds) is
exactly preserved; a successful rebalance credits/debits the externally
observed gain/loss (the negative of that balance, as measured before the
call) exactly to the treasury holder available balance and leaves the
balance at minus the allowance drawn in. -/
theorem conservation (asset : Addr) (sys : Sys) (hwf : Wf asset sys) :
    (∀ ops : List Op, (∀ op ∈ ops, OpOK sys.pool op) →
      conserved asset (runOps asset sys ops) = conserved asset sys) ∧
    (∀ (allowance : Nat) (out : UpdateOut),
      update sys.st asset sys.liquid allowance (poolBalQ sys.pool) = .ok out →
      conserved asset (runUpdate asset sys allowance) = -(out.allowanceUsed : ℤ) ∧
      (treasAvail (runUpdate asset sys allowance).st asset : ℤ)
        = (treasAvail sys.st asset : ℤ) - conserved asset sys) :=
  ⟨fun ops hops => (runOps_inv asset ops sys hwf hops).1,
    fun allowance out hupd => runUpdate_inv asset sys allowance out hwf hupd⟩

/-- Closed witness for conservation: treasury 0 and holder 1 share asset 10
with one portion allocation on adapter 20 (staked 30, claimable 5) and
liquid balance 40; a deposit, an unbond and a claim preserve the conserved
balance, and a rebalance with allowance 7 uses none of it, crediting the
25-unit surplus to the treasury. -/
theorem conservation_witness :
    Wf 10 ⟨⟨0, [0, 1], [(0, ⟨[], [], .active⟩), (1, ⟨[⟨10, 50⟩], [], .active⟩)], [10], [(10, [⟨some nickA, 20, 0, .portion, 0, 0⟩])]⟩, 40, [⟨20, 30, 5⟩]⟩ ∧
    conserved 10 (runOps 10 ⟨⟨0, [0, 1], [(0, ⟨[], [], .active⟩), (1, ⟨[⟨10, 50⟩], [], .active⟩)], [10], [(10, [⟨some nickA, 20, 0, .portion, 0, 0⟩])]⟩, 40, [⟨20, 30, 5⟩]⟩ [Op.deposit 1 5, Op.unbond 1 false 3, Op.claim 1 false])
      = conserved 10 ⟨⟨0, [0, 1], [(0, ⟨[], [], .active⟩), (1, ⟨[⟨10, 50⟩], [], .active⟩)], [10], [(10, [⟨some nickA, 20, 0, .portion, 0, 0⟩])]⟩, 40, [⟨20, 30, 5⟩]⟩ ∧
    update (⟨⟨0, [0, 1], [(0, ⟨[], [], .active⟩), (1, ⟨[⟨10, 50⟩], [], .active⟩)], [10], [(10, [⟨some nickA, 20, 0, .portion, 0, 0⟩])]⟩, 40, [⟨20, 30, 5⟩]⟩ : Sys).st 10 (⟨⟨0, [0, 1], [(0, ⟨[], [], .active⟩), (1, ⟨[⟨10, 50⟩], [], .active⟩)], [10], [(10, [⟨some nickA, 20, 0, .portion, 0, 0⟩])]⟩, 40, [⟨20, 30, 5⟩]⟩ : Sys).liquid 7 (poolBalQ (⟨⟨0, [0, 1], [(0, ⟨[], [], .active⟩), (1, ⟨[⟨10, 50⟩], [], .active⟩)], [10], [(10, [⟨some nickA, 20, 0, .portion, 0, 0⟩])]⟩, 40, [⟨20, 30, 5⟩]⟩ : Sys).pool)
      = .ok ⟨⟨0, [0, 1], [(0, ⟨[⟨10, 25⟩], [], .active⟩), (1, ⟨[⟨10, 50⟩], [], .active⟩)], [10], [(10, [⟨some nickA, 20, 0, .portion, 0, 0⟩])]⟩, [], [], [Msg.adapterUnbond 20 35], 0, 0⟩ ∧
    conserved 10 (runUpdate 10 ⟨⟨0, [0, 1], [(0, ⟨[], [], .active⟩), (1, ⟨[⟨10, 50⟩], [], .active⟩)], [10], [(10, [⟨some nickA, 20, 0, .portion, 0, 0⟩])]⟩, 40, [⟨20, 30, 5⟩]⟩ 7)
      = -(((⟨⟨0, [0, 1], [(0, ⟨[⟨10, 25⟩], [], .active⟩), (1, ⟨[⟨10, 50⟩], [], .active⟩)], [10], [(10, [⟨some nickA, 20, 0, .portion, 0, 0⟩])]⟩, [], [], [Msg.adapterUnbond 20 35], 0, 0⟩ : UpdateOut)).allowanceUsed : ℤ) ∧
    (treasAvail (runUpdate 10 ⟨⟨0, [0, 1], [(0, ⟨[], [], .active⟩), (1, ⟨[⟨10, 50⟩], [], .active⟩)], [10], [(10, [⟨some nickA, 20, 0, .portion, 0, 0⟩])]⟩, 40, [⟨20, 30, 5⟩]⟩ 7).st 10 : ℤ)
      = (treasAvail (⟨⟨0, [0, 1], [(0, ⟨[], [], .active⟩), (1, ⟨[⟨10, 50⟩], [], .active⟩)], [10], [(10, [⟨some nickA, 20, 0, .portion, 0, 0⟩])]⟩, 40, [⟨20, 30, 5⟩]⟩ : Sys).st 10 : ℤ)
        - conserved 10 ⟨⟨0, [0, 1], [(0, ⟨[], [], .active⟩), (1, ⟨[⟨10, 50⟩], [], .active⟩)], [10], [(10, [⟨some nickA, 20, 0, .portion, 0, 0⟩])]⟩, 40, [⟨20, 30, 5⟩]⟩ := by
  have hwf : Wf 10 ⟨⟨0, [0, 1], [(0, ⟨[], [], .active⟩), (1, ⟨[⟨10, 50⟩], [], .active⟩)], [10], [(10, [⟨some nickA, 20, 0, .portion, 0, 0⟩])]⟩, 40, [⟨20, 30, 5⟩]⟩ := ⟨by decide, by decide, by decide,
    ⟨[⟨some nickA, 20, 0, .portion, 0, 0⟩], rfl, rfl⟩, by decide, by decide⟩
  have hupd : update (⟨⟨0, [0, 1], [(0, ⟨[], [], .active⟩), (1, ⟨[⟨10, 50⟩], [], .active⟩)], [10], [(10, [⟨some nickA, 20, 0, .portion, 0, 0⟩])]⟩, 40, [⟨20, 30, 5⟩]⟩ : Sys).st 10 (⟨⟨0, [0, 1], [(0, ⟨[], [], .active⟩), (1, ⟨[⟨10, 50⟩], [], .active⟩)], [10], [(10, [⟨some nickA, 20, 0, .portion, 0, 0⟩])]⟩, 40, [⟨20, 30, 5⟩]⟩ : Sys).liquid 7 (poolBalQ (⟨⟨0, [0, 1], [(0, ⟨[], [], .active⟩), (1, ⟨[⟨10, 50⟩], [], .active⟩)], [10], [(10, [⟨some nickA, 20, 0, .portion, 0, 0⟩])]⟩, 40, [⟨20, 30, 5⟩]⟩ : Sys).pool)
      = .ok ⟨⟨0, [0, 1], [(0, ⟨[⟨10, 25⟩], [], .active⟩), (1, ⟨[⟨10, 50⟩], [], .active⟩)], [10], [(10, [⟨some nickA, 20, 0, .portion, 0, 0⟩])]⟩, [], [], [Msg.adapterUnbond 20 35], 0, 0⟩ := rfl
  have h := conservation 10 ⟨⟨0, [0, 1], [(0, ⟨[], [], .active⟩), (1, ⟨[⟨10, 50⟩], [], .active⟩)], [10], [(10, [⟨some nickA, 20, 0, .portion, 0, 0⟩])]⟩, 40, [⟨20, 30, 5⟩]⟩ hwf
  refine ⟨hwf, h.1 _ ?_, hupd, (h.2 7 ⟨⟨0, [0, 1], [(0, ⟨[⟨10, 25⟩], [], .active⟩), (1, ⟨[⟨10, 50⟩], [], .active⟩)], [10], [(10, [⟨some nickA, 20, 0, .portion, 0, 0⟩])]⟩, [], [], [Msg.adapterUnbond 20 35], 0, 0⟩ hupd).1, (h.2 7 ⟨⟨0, [0, 1], [(0, ⟨[⟨10, 25⟩], [], .active⟩), (1, ⟨[⟨10, 50⟩], [], .active⟩)], [10], [(10, [⟨some nickA, 20, 0, .portion, 0, 0⟩])]⟩, [], [], [Msg.adapterUnbond 20 35], 0, 0⟩ hupd).2⟩
  intro op hop
  simp only [List.mem_cons, List.not_mem_nil, or_false] at hop
  rcases hop with rfl | rfl | rfl
  · show (1 : Addr) ∉ poolAddrs [(⟨20, 30, 5⟩ : AdapterSt)]
    decide
  · trivial
  · trivial

/-- C1 counterexample to the literal reading: the quantity named by the
claim, (sum of available balances) + (sum of pending unbondings) + (sum of
allocation balances) + (liquid balance), is not preserved by a plain
deposit: crediting the depositor and receiving the tokens both raise it,
so a deposit of 5 raises it by 10 with no gain or loss and no change to
the treasury holder available balance. -/
theorem statedQuantity_counterexample :
    statedQuantity 10 (runOp 10 ⟨⟨0, [0, 1], [(0, ⟨[], [], .active⟩), (1, ⟨[], [], .active⟩)], [10], [(10, [])]⟩, 0, []⟩ (.deposit 1 5))
      ≠ statedQuantity 10 ⟨⟨0, [0, 1], [(0, ⟨[], [], .active⟩), (1, ⟨[], [], .active⟩)], [10], [(10, [])]⟩, 0, []⟩ ∧
    treasAvail (runOp 10 ⟨⟨0, [0, 1], [(0, ⟨[], [], .active⟩), (1, ⟨[], [], .active⟩)], [10], [(10, [])]⟩, 0, []⟩ (.deposit 1 5)).st 10
      = treasAvail (⟨⟨0, [0, 1], [(0, ⟨[], [], .active⟩), (1, ⟨[], [], .active⟩)], [10], [(10, [])]⟩, 0, []⟩ : Sys).st 10 := by
  constructor
  · decide
  · decide

end Shade
